import Mathlib

/-!
# VictorySharedEvents: a shallow embedding

Verification development for `packages/victory-shared-events/src/victory-shared-events.js`,
the React component that coordinates events and state mutations between a container and
its named children.

Conventions of the embedding.

* JS records are association lists in insertion order (`Rec`); `Rec.set` overwrites an
  existing key in place and appends a new one, as property assignment does. `Rec.keys`
  enumerates array indices first, as `Object.keys` does.
* `isEqual` (react-fast-compare) is modelled by the `isEqual` functions below: records are
  compared by key set and value, not by key order; functions are compared by reference.
* A `children` prop is undefined (`none`) or an array of nodes (`some cs`); a single
  node stands for the array that `React.Children.toArray` makes of it, which `isEqual`
  tells apart from the node itself and the model does not. The other falsy values
  (`null`, `false`, `""`, `0`) are not modelled, nor are the keys that `toArray` assigns.
  A child is an element or a text node; a text node has neither `props` nor `type`.
  React keeps `key` out of `props`: the key of an element is a field of its own.
* The `container` and `groupComponent` props are undefined or elements.
* `this.state` and `this.sharedEventsCache` are plain objects; a read of the cache under
  the name of a member inherited from `Object.prototype` yields that member unless an
  entry of that name was stored (`objectMembers`).
* The `name` prop of a child, when it is given, is a string.
* `this` is an explicit `Instance`; the object identity of the sharedEvents bundles that
  the component allocates is an explicit reference number taken from `Instance.nextRef`.
  The rewrite of the children threads the cache and this counter (`Rewrite`), together
  with a record of the bundles it hands out, which serves to state what a child receives.
* A thrown `TypeError` is the result `none`.
* Functions of `victory-core`, `react` and `json-stringify-safe` that the file calls but
  does not define are the fields of `Lib`.
-/

set_option autoImplicit false

namespace VictorySharedEvents

/-! ## Values and records -/

/-- Plain JS values. `fn r` is a function (compared by reference `r`), `ref r` a reference
to an object allocated by the component, `data c` any other structured value, identified
by a code `c` of its deep-equality class. -/
inductive Atom where
  | undef
  | null
  | bool (b : Bool)
  | num (n : Int)
  | str (s : String)
  | fn (r : Nat)
  | ref (r : Nat)
  | data (c : Nat)
  deriving DecidableEq, Repr

/-- A record in insertion order. -/
abbrev Rec (α : Type) := List (String × α)

/-- Property read `o[k]`: the value of the first entry with key `k`. -/
def Rec.get? {α : Type} (k : String) : Rec α → Option α
  | [] => none
  | (k', v) :: rest => if k' = k then some v else Rec.get? k rest

/-- Property write `o[k] = v`: an existing key keeps its place, a new key is appended. -/
def Rec.set {α : Type} (k : String) (v : α) : Rec α → Rec α
  | [] => [(k, v)]
  | (k', v') :: rest => if k' = k then (k, v) :: rest else (k', v') :: Rec.set k v rest

/-- lodash `assign(target, source)`: every own entry of `source`, in order, is written
into `target` (an `undefined` value is written like any other). -/
def Rec.assign {α : Type} (target source : Rec α) : Rec α :=
  source.foldl (fun t kv => Rec.set kv.1 kv.2 t) target

/-- Deep equality of two records whose values are compared by `eq`: identical records are
equal at once (the test `a === b`); otherwise the records must have the same keys with
equal values, whatever the order of the keys. -/
def Rec.isEqual {α : Type} [DecidableEq α] (eq : α → α → Bool) (a b : Rec α) : Bool :=
  decide (a = b) ||
  (a.length == b.length &&
    (a ++ b).all (fun kv =>
      match Rec.get? kv.1 a, Rec.get? kv.1 b with
      | some x, some y => eq x y
      | _, _ => false))

/-- A prop value: a plain value or a record of plain values (such as the `events` prop of
a container, a record of handlers). -/
inductive Val where
  | atom (a : Atom)
  | record (fields : Rec Atom)
  deriving DecidableEq, Repr

/-- Deep equality of prop values. -/
def Val.isEqual : Val → Val → Bool
  | .atom a, .atom b => decide (a = b)
  | .record f, .record g => Rec.isEqual (fun x y => decide (x = y)) f g
  | _, _ => false

/-- A record of prop values. -/
abbrev Obj := Rec Val

/-- Deep equality of records of prop values. -/
def Obj.isEqual (a b : Obj) : Bool := Rec.isEqual Val.isEqual a b

/-- The canonical array indices among property names: decimal digits without a leading
zero, below `2^32 - 1`. Such keys are enumerated first, in ascending order. -/
def arrayIndex? (s : String) : Option Nat :=
  let cs := s.toList
  if cs = [] ∨ ¬ cs.all Char.isDigit ∨ (cs.head? = some '0' ∧ cs.length ≠ 1) then none
  else
    let n := cs.foldl (fun acc c => 10 * acc + (c.toNat - 48)) 0
    if n < 4294967295 then some n else none

/-- Insertion of an index key into an ascending list of index keys. -/
def insertIndex (n : Nat) (k : String) : List (Nat × String) → List (Nat × String)
  | [] => [(n, k)]
  | (m, k') :: rest => if n ≤ m then (n, k) :: (m, k') :: rest else (m, k') :: insertIndex n k rest

/-- lodash `keys(o)`: the own property names in enumeration order, array indices first
(ascending), then the other names in insertion order. -/
def Rec.keys {α : Type} (o : Rec α) : List String :=
  let names := o.map Prod.fst
  let idx := names.foldl (fun acc k =>
    match arrayIndex? k with
    | some n => insertIndex n k acc
    | none => acc) []
  idx.map Prod.snd ++ names.filter (fun k => (arrayIndex? k).isNone)

/-- The property key a name is coerced to when it indexes an object: `undefined` becomes
the key `"undefined"`. -/
def propKey (name : Option String) : String := name.getD "undefined"

/-- The name as a prop value. -/
def nameVal : Option String → Val
  | none => .atom .undef
  | some s => .atom (.str s)

/-! ## Elements, descriptors and props -/

/-- The `type` of a React element: a component class or a host tag, compared by
reference (`tag`), with the static members the file reads. -/
structure CompType where
  tag : String
  role : Option String := none
  hasGetBaseProps : Bool := false
  deriving DecidableEq, Repr

/-- A child node after `React.Children.toArray`: a text (or number) node, which has no
`props` and no `type`, or an element. `attrs` are the props other than `children`;
`children` is `none` when `props.children` is undefined and `some cs` when it is a
(truthy) node with `React.Children.toArray(props.children) = cs`. -/
inductive Element where
  | text (s : String)
  | elem (type : CompType) (key : Option String) (attrs : Obj) (children : Option (List Element))

mutual
/-- Decision procedure for equality of elements. -/
def Element.decEq : (a b : Element) → Decidable (a = b)
  | .text s, .text t =>
    if h : s = t then isTrue (by rw [h]) else isFalse (by intro h1; injection h1; contradiction)
  | .text _, .elem .. => isFalse (by intro h; cases h)
  | .elem .., .text _ => isFalse (by intro h; cases h)
  | .elem t k a c, .elem t2 k2 a2 c2 =>
    if h1 : t = t2 ∧ k = k2 ∧ a = a2 then
      match Element.decEqKids c c2 with
      | isTrue h2 => isTrue (by rw [h1.1, h1.2.1, h1.2.2, h2])
      | isFalse h2 => isFalse (by intro h; injection h; contradiction)
    else isFalse (by intro h; injection h with e1 e2 e3 e4; exact h1 ⟨e1, e2, e3⟩)
/-- Decision procedure for equality of optional child lists. -/
def Element.decEqKids : (a b : Option (List Element)) → Decidable (a = b)
  | none, none => isTrue rfl
  | none, some _ => isFalse (by intro h; cases h)
  | some _, none => isFalse (by intro h; cases h)
  | some x, some y =>
    match Element.decEqList x y with
    | isTrue h => isTrue (by rw [h])
    | isFalse h => isFalse (by intro h1; injection h1; contradiction)
/-- Decision procedure for equality of child lists. -/
def Element.decEqList : (a b : List Element) → Decidable (a = b)
  | [], [] => isTrue rfl
  | [], _ :: _ => isFalse (by intro h; cases h)
  | _ :: _, [] => isFalse (by intro h; cases h)
  | x :: xs, y :: ys =>
    match Element.decEq x y, Element.decEqList xs ys with
    | isTrue h1, isTrue h2 => isTrue (by rw [h1, h2])
    | isFalse h1, _ => isFalse (by intro h; injection h; contradiction)
    | _, isFalse h2 => isFalse (by intro h; injection h; contradiction)
end

instance : DecidableEq Element := Element.decEq

mutual
/-- Deep equality of two nodes: same type (by reference), same key, deep-equal props. -/
def Element.isEqual : Element → Element → Bool
  | .text s, .text t => decide (s = t)
  | .elem t k a c, .elem t2 k2 a2 c2 =>
    decide (t = t2) && decide (k = k2) && Obj.isEqual a a2 && Element.isEqualKids c c2
  | _, _ => false
/-- Deep equality of two `children` props. -/
def Element.isEqualKids : Option (List Element) → Option (List Element) → Bool
  | none, none => true
  | some x, some y => Element.isEqualList x y
  | _, _ => false
/-- Deep equality of two child arrays, position by position. -/
def Element.isEqualList : List Element → List Element → Bool
  | [], [] => true
  | x :: xs, y :: ys => Element.isEqual x y && Element.isEqualList xs ys
  | _, _ => false
end

/-- A props record: the plain props and the `children` entry (`none`: absent or
undefined). -/
structure PropRec where
  attrs : Obj := []
  children : Option (List Element) := none
  deriving DecidableEq

/-- Deep equality of props records. -/
def PropRec.isEqual (a b : PropRec) : Bool :=
  Obj.isEqual a.attrs b.attrs && Element.isEqualKids a.children b.children

/-- The `props` of a node; a text node has none. -/
def Element.props : Element → Option PropRec
  | .text _ => none
  | .elem _ _ attrs children => some { attrs := attrs, children := children }

/-- The props of a node other than `children`; a text node has none. -/
def Element.attrs : Element → Obj
  | .text _ => []
  | .elem _ _ attrs _ => attrs

/-- The `key` of a node; a text node has none. -/
def Element.key? : Element → Option String
  | .text _ => none
  | .elem _ key _ _ => key

/-- The `type` of a node; a text node has none. -/
def Element.type? : Element → Option CompType
  | .text _ => none
  | .elem t _ _ _ => some t

/-- The `childName` field of a descriptor: absent, a string, or an array of strings. -/
inductive ChildName where
  | absent
  | one (s : String)
  | many (l : List String)
  deriving DecidableEq, Repr

/-- An event descriptor. Its `eventHandlers` record is only handed on to victory-core and
is kept as one plain value. -/
structure EventDescriptor where
  childName : ChildName := .absent
  target : Option String := none
  eventKey : Atom := .undef
  eventHandlers : Atom := .undef
  deriving DecidableEq, Repr

/-- A mutation descriptor (`externalEventMutations`, `initialEventMutations`). -/
structure MutationDescriptor where
  childName : ChildName := .absent
  target : Atom := .undef
  eventKey : Atom := .undef
  mutation : Atom := .undef
  callback : Atom := .undef
  deriving DecidableEq, Repr

/-- The props of the component (`propTypes`). A list-valued prop is `none` when it is not
given. -/
structure Props where
  children : Option (List Element) := none
  container : Option Element := none
  eventKey : Atom := .undef
  events : Option (List EventDescriptor) := none
  externalEventMutations : Option (List MutationDescriptor) := none
  groupComponent : Option Element := some (.elem { tag := "g" } none [] none)
  initialEventMutations : Option (List MutationDescriptor) := none
  deriving DecidableEq

/-- Deep equality of optional nodes. -/
def isEqualNode : Option Element → Option Element → Bool
  | none, none => true
  | some a, some b => Element.isEqual a b
  | _, _ => false

/-- The check `isEqual(this.props, nextProps)`, on props whose `children` are arrays. -/
def Props.isEqual (a b : Props) : Bool :=
  Element.isEqualKids a.children b.children && isEqualNode a.container b.container &&
  decide (a.eventKey = b.eventKey) && decide (a.events = b.events) &&
  decide (a.externalEventMutations = b.externalEventMutations) &&
  isEqualNode a.groupComponent b.groupComponent &&
  decide (a.initialEventMutations = b.initialEventMutations)

/-- The base-props map: child name to attributes, plus the entry `parent`. -/
abbrev BaseProps := Rec PropRec

/-- Deep equality of base-props maps. -/
def BaseProps.isEqual (a b : BaseProps) : Bool := Rec.isEqual PropRec.isEqual a b

/-- The component state: child name (or `parent`) to its slice. -/
abbrev State := Rec Val

/-- `React.Children.toArray` of a `children` prop. -/
def toArray : Option (List Element) → List Element
  | none => []
  | some cs => cs

/-! ## Shared event bundles and the cache -/

/-- A sharedEvents bundle `{ events, getEvents, getEventState }`. `ref` is the identity of
the object; `name` and `baseProps` are the values its two closures are bound to; `events`
is `none` when the bundle holds `false` (the `events` prop was not an array). -/
structure Bundle where
  ref : Nat
  events : Option (List EventDescriptor)
  name : Option String
  baseProps : BaseProps
  deriving DecidableEq

/-- The array `sharedEventsCacheValues`. -/
structure Fingerprint where
  name : Option String
  baseProps : BaseProps
  childEvents : Option (List EventDescriptor)
  stateStr : Option String
  deriving DecidableEq

/-- The check `isEqual(cacheValues, prevCacheValues)`. -/
def Fingerprint.isEqual (a b : Fingerprint) : Bool :=
  decide (a.name = b.name) && BaseProps.isEqual a.baseProps b.baseProps &&
  decide (a.childEvents = b.childEvents) && decide (a.stateStr = b.stateStr)

/-- The object `this.sharedEventsCache`. -/
abbrev Cache := Rec (Bundle × Fingerprint)

/-- The component instance `this`. -/
structure Instance where
  props : Props
  state : State := []
  baseProps : BaseProps := []
  sharedEventsCache : Cache := []
  nextRef : Nat := 0
  deriving DecidableEq

/-- The functions the file calls and does not define. -/
structure Lib where
  /-- `stringify` of json-stringify-safe, applied to `this.state[name]`. -/
  stringify : Option Val → Option String
  /-- The static `child.type.getBaseProps(child.props)`. -/
  getBaseProps : CompType → PropRec → Option PropRec
  /-- `Helpers.reduceChildren(children, iteratee)`. -/
  reduceChildren : List Element → (Element → String → Option (List (String × PropRec))) →
    List (String × PropRec)
  /-- `Events.getComponentEvents(props, components)`. -/
  getComponentEvents : Props → List String → Option (List EventDescriptor)
  /-- `Events.getExternalMutationsWithChildren(mutations, baseProps, state, childNames)`. -/
  getExternalMutationsWithChildren :
    List MutationDescriptor → BaseProps → State → List String → Option State
  /-- `Events.getEventState(eventKey, namespace, childType)` bound to the instance. -/
  getEventState : State → String → String → Option String → Option PropRec
  /-- `Events.getEvents({ sharedEvents }, target)` bound to the instance. -/
  getEvents : State → Bundle → String → Option (Rec Atom)
  /-- `Events.getPartialEvents(events, eventKey, childProps)`. -/
  getPartialEvents : Option (Rec Atom) → String → PropRec → Rec Atom

/-! ## lodash and React helpers -/

/-- lodash `defaults(dest, src)`: an entry of `src` is written where `dest` resolves to
`undefined` (key absent, or present with an undefined value). -/
def Rec.defaults {α : Type} (isUndef : α → Bool) (dest src : Rec α) : Rec α :=
  src.foldl (fun d kv =>
    match Rec.get? kv.1 d with
    | none => Rec.set kv.1 kv.2 d
    | some x => if isUndef x then Rec.set kv.1 kv.2 d else d) dest

/-- The test `v === undefined` on prop values. -/
def Val.isUndef : Val → Bool
  | .atom .undef => true
  | _ => false

/-- The test `a === undefined` on plain values. -/
def Atom.isUndef : Atom → Bool
  | .undef => true
  | _ => false

/-- lodash `defaults` on props records; the `children` entry is treated like every other
key: the first defined one stays. -/
def PropRec.defaults (dest src : PropRec) : PropRec :=
  { attrs := Rec.defaults Val.isUndef dest.attrs src.attrs
    children := match dest.children with
      | some cs => some cs
      | none => src.children }

/-- lodash `isFunction`. -/
def isFunction : Atom → Bool
  | .fn _ => true
  | _ => false

/-- lodash `isEmpty` on an optional array. -/
def isEmptyList {α : Type} : Option (List α) → Bool
  | none => true
  | some l => l.isEmpty

/-- `React.cloneElement(element, config, children)` of an element or of `undefined`, on
which React throws (the result `none`). `key` is `config.key` when defined; `config`
holds the other entries of the config record; `children` is `some c` when the call sets
the children (by a `children` entry of `config` or by the third argument) and `none`
when it leaves them alone. The clone of a text node, for which React makes an element of
undefined type, is not modelled: no call of the file clones a child that is a text node,
and the container is an element. -/
def cloneElement (element : Option Element) (key : Option String) (config : Obj)
    (children : Option (Option (List Element))) : Option Element :=
  match element with
  | some (.elem t k a c) =>
    some (.elem t (key.elim k some) (Rec.assign a config) (children.elim c id))
  | _ => none

/-! ## Effects of the lifecycle methods -/

/-- A call `this.setState(patch, callback)`; `callback` is `none` for `undefined` and
otherwise the list of functions the compiled callback is closed over. -/
structure SetStateCall where
  patch : State
  callback : Option (List Atom)
  deriving DecidableEq

/-- What a lifecycle step does besides changing the instance. -/
inductive Effect where
  | engine (mutations : List MutationDescriptor) (baseProps : BaseProps) (state : State)
      (childNames : List String)
  | setState (call : SetStateCall)
  | invoke (callback : Atom)
  deriving DecidableEq

/-- Running a compiled callback `() => callbacks.forEach((c) => c())`: the functions it
invokes, in order. -/
def runCompiled (callbacks : List Atom) : List Effect := callbacks.map Effect.invoke

/-- React's `setState(patch, callback)`: the patch is merged into the state, then the
callback runs. -/
def Instance.setState (inst : Instance) (call : SetStateCall) : Instance × List Effect :=
  ({ inst with state := Rec.assign inst.state call.patch },
   Effect.setState call ::
     (match call.callback with
      | some cbs => runCompiled cbs
      | none => []))

/-! ## The methods of the component -/

/-- `getAllEvents(props)`. -/
def getAllEvents (lib : Lib) (props : Props) : Option (List EventDescriptor) :=
  let components := ["container", "groupComponent"]
  match lib.getComponentEvents props components with
  | some componentEvents =>
    match props.events with
    | some events => some (componentEvents ++ events)
    | none => some componentEvents
  | none => props.events

/-- `applyInitialMutations(initialMutations)`: the `setState` calls it makes. -/
def applyInitialMutations (initialMutations : Option State) : List SetStateCall :=
  match initialMutations with
  | some patch => if !patch.isEmpty then [{ patch := patch, callback := none }] else []
  | none => []

/-- The callbacks collected by the `reduce` of `applyExternalMutations`. -/
def collectCallbacks (mutations : List MutationDescriptor) : List Atom :=
  mutations.foldl
    (fun memo mutation => if isFunction mutation.callback then memo ++ [mutation.callback] else memo)
    []

/-- `applyExternalMutations(props, externalMutations)`: the `setState` calls it makes.
With a non-empty patch and no `externalEventMutations` array the `reduce` throws. -/
def applyExternalMutations (props : Props) (externalMutations : Option State) :
    Option (List SetStateCall) :=
  match externalMutations with
  | some patch =>
    if !patch.isEmpty then
      match props.externalEventMutations with
      | some mutations =>
        let callbacks := collectCallbacks mutations
        let compiledCallbacks := if callbacks.length ≠ 0 then some callbacks else none
        some [{ patch := patch, callback := compiledCallbacks }]
      | none => none
    else some []
  | none => some []

/-- The prop `props[type]` for the two mutation props. -/
def Props.mutations (props : Props) (type : String) : Option (List MutationDescriptor) :=
  if type = "externalEventMutations" then props.externalEventMutations
  else if type = "initialEventMutations" then props.initialEventMutations
  else none

/-- `getMutations(props, baseProps, type)`, with the record of the engine call it makes. -/
def getMutations (lib : Lib) (state : State) (props : Props) (baseProps : BaseProps)
    (type : String) : Option State × List Effect :=
  match props.mutations type with
  | some mutations =>
    if !mutations.isEmpty then
      (lib.getExternalMutationsWithChildren mutations baseProps state (Rec.keys baseProps),
       [Effect.engine mutations baseProps state (Rec.keys baseProps)])
    else (none, [])
  | none => (none, [])

/-- The property names that the object `{}` inherits from `Object.prototype`. Each of
them resolves to a function or, for `__proto__`, to the prototype object: a truthy value
that is not iterable. -/
def objectMembers : List String :=
  ["constructor", "__defineGetter__", "__defineSetter__", "hasOwnProperty",
   "__lookupGetter__", "__lookupSetter__", "isPrototypeOf", "propertyIsEnumerable",
   "toString", "valueOf", "__proto__", "toLocaleString"]

/-- `cacheSharedEvents(name, sharedEvents, cacheValues)`. A store under an inherited name
makes an own entry that shadows the inherited member; for `__proto__` the array becomes
the prototype of the cache object and is what `this.sharedEventsCache["__proto__"]` then
reads, which the entry stands for. The rewrite never stores under an inherited name that
has no entry: the lookup that precedes the store throws. -/
def cacheSharedEvents (cache : Cache) (name : Option String) (sharedEvents : Bundle)
    (cacheValues : Fingerprint) : Cache :=
  Rec.set (propKey name) (sharedEvents, cacheValues) cache

/-- `getCachedSharedEvents(name, cacheValues)`. The result `some none` is `undefined`. The
result `none` is a thrown `TypeError`: for a name without an entry that is the name of a
member inherited from `Object.prototype`, `this.sharedEventsCache[name]` is that member,
a truthy value, so `|| []` does not apply and the array destructuring of a value that is
not iterable throws. -/
def getCachedSharedEvents (cache : Cache) (name : Option String) (cacheValues : Fingerprint) :
    Option (Option Bundle) :=
  match Rec.get? (propKey name) cache with
  | some (sharedEvents, prevCacheValues) =>
    some (if Fingerprint.isEqual cacheValues prevCacheValues then some sharedEvents else none)
  | none => if propKey name ∈ objectMembers then none else some none

/-- The iteratee of `getBasePropsFromChildren`. -/
def iteratee (lib : Lib) (child : Element) (childName : String) :
    Option (List (String × PropRec)) :=
  match child with
  | .elem t _ attrs children =>
    if t.hasGetBaseProps then
      match lib.getBaseProps t { attrs := attrs, children := children } with
      | some baseProps => some [(childName, baseProps)]
      | none => none
    else none
  | .text _ => none

/-- `getBasePropsFromChildren(childComponents)`; `fromPairs` writes the pairs in order. -/
def getBasePropsFromChildren (lib : Lib) (childComponents : List Element) : BaseProps :=
  let baseProps := lib.reduceChildren childComponents (iteratee lib)
  Rec.assign [] baseProps

/-- `getBaseProps(props)`. The children are those of `this.props`; a container that is
not an element has no props and contributes the empty record. -/
def getBaseProps (lib : Lib) (inst : Instance) (props : Props) : BaseProps :=
  let container := props.container
  let children := toArray inst.props.children
  let childBaseProps := getBasePropsFromChildren lib children
  let parentBaseProps : PropRec :=
    match container with
    | some c => c.props.getD {}
    | none => {}
  Rec.assign (Rec.assign [] childBaseProps) [("parent", parentBaseProps)]

/-! ## The tree rewrite -/

/-- The filter predicate of `getNewChildren` on a descriptor, for a child named `name`. -/
def eventFilter (name : Option String) (event : EventDescriptor) : Bool :=
  if event.target = some "parent" then false
  else
    match event.childName with
    | .many names =>
      (match name with
       | some n => names.contains n
       | none => false)
    | .one s => decide (name = some s) || decide (s = "all")
    | .absent => decide (name = none)

/-- The expression `child.props.name || childNames[index]`; a `name` prop is a string
when it is given. -/
def deriveName (attrs : Obj) (childNames : List String) (index : Nat) : Option String :=
  match Rec.get? "name" attrs with
  | some (.atom (.str s)) => if s ≠ "" then some s else childNames[index]?
  | _ => childNames[index]?

/-- One sharedEvents bundle handed to a participating child: a record kept beside the
rewrite to speak about it, not a part of the program state. -/
structure Injection where
  child : Element
  name : Option String
  cacheValues : Fingerprint
  sharedEvents : Bundle
  deriving DecidableEq

/-- The part of `this` that `getNewChildren` reads and writes, with the record of the
bundles handed out so far, in traversal order. -/
structure Rewrite where
  cache : Cache
  nextRef : Nat
  injected : List Injection := []
  deriving DecidableEq

/-- What `getNewChildren` closes over: `props.events`, `props.eventKey`, `baseProps`, and
`this.state`. -/
structure Closure where
  lib : Lib
  events : Option (List EventDescriptor)
  eventKey : Atom
  baseProps : BaseProps
  state : State

/-- `childNames.slice(start, stop)`. -/
def slice {α : Type} (l : List α) (start stop : Nat) : List α :=
  (l.drop start).take (stop - start)

/-- The `childEvents` of a child named `name`:
`Array.isArray(events) && events.filter(...)`; `none` is `false`. -/
def childEventsFor (events : Option (List EventDescriptor)) (name : Option String) :
    Option (List EventDescriptor) :=
  events.map (fun es => es.filter (eventFilter name))

/-- The array `sharedEventsCacheValues` of a child named `name`. -/
def cacheValuesFor (cl : Closure) (name : Option String) : Fingerprint :=
  { name := name, baseProps := cl.baseProps, childEvents := childEventsFor cl.events name,
    stateStr := cl.lib.stringify (Rec.get? (propKey name) cl.state) }

/-- The object `{ events: childEvents, getEvents, getEventState }` that the rewrite
allocates for a child named `name`. -/
def newSharedEvents (cl : Closure) (name : Option String) (st : Rewrite) : Bundle :=
  { ref := st.nextRef, events := childEventsFor cl.events name, name := name,
    baseProps := cl.baseProps }

/-- The value of the expression
`this.getCachedSharedEvents(name, sharedEventsCacheValues) || { events: childEvents, ... }`
when the lookup returns: the cached bundle, or a new object. -/
def sharedEventsFor (cl : Closure) (name : Option String) (st : Rewrite) : Bundle :=
  match getCachedSharedEvents st.cache name (cacheValuesFor cl name) with
  | some (some b) => b
  | _ => newSharedEvents cl name st

/-- The string `'' + v` that React makes of a `key`. -/
def Val.toKey : Val → String
  | .atom (.str s) => s
  | .atom (.num n) => toString n
  | .atom (.bool b) => if b then "true" else "false"
  | .atom .null => "null"
  | .atom .undef => "undefined"
  | .atom (.fn _) => "function"
  | _ => "[object Object]"

/-- The `key` that `cloneElement` reads from a config record: `'' + config.key` when
`config.key !== undefined`. -/
def configKey (config : Obj) : Option String :=
  match Rec.get? "key" config with
  | some v => if v.isUndef then none else some v.toKey
  | none => none

/-- The entries of a config record that `cloneElement` copies into the props: all but
`key`. -/
def configProps (config : Obj) : Obj := config.filter (fun kv => kv.1 ≠ "key")

/-- The record `{ key, sharedEvents, eventKey, name }` of `getNewChildren`, with the
template string `events-${name}` as key. -/
def injectedRecord (cl : Closure) (name : Option String) (sharedEvents : Bundle) : Obj :=
  [("key", .atom (.str ("events-" ++ propKey name))),
   ("sharedEvents", .atom (.ref sharedEvents.ref)), ("eventKey", .atom cl.eventKey),
   ("name", nameVal name)]

/-- The branch of `alterChildren` for a participating child without nested children
(source lines 187 to 221). -/
def injectChild (cl : Closure) (childNames : List String) (index : Nat) (t : CompType)
    (key : Option String) (attrs : Obj) (st : Rewrite) : Option (Element × Rewrite) :=
  let name := deriveName attrs childNames index
  let sharedEventsCacheValues := cacheValuesFor cl name
  match getCachedSharedEvents st.cache name sharedEventsCacheValues with
  | none => none
  | some cached =>
    let sharedEvents := cached.getD (newSharedEvents cl name st)
    let nextRef := if cached.isSome then st.nextRef else st.nextRef + 1
    let cache := cacheSharedEvents st.cache name sharedEvents sharedEventsCacheValues
    let config := Rec.assign (injectedRecord cl name sharedEvents) attrs
    let child := Element.elem t key attrs none
    (cloneElement (some child) (configKey config) (configProps config) none).map
      (fun clone =>
        (clone,
         { cache := cache, nextRef := nextRef,
           injected := st.injected ++
             [{ child := child, name := name, cacheValues := sharedEventsCacheValues,
                sharedEvents := sharedEvents }] }))

mutual
/-- The body of the `reduce` of `alterChildren` for the child at `index`. -/
def alterChild (cl : Closure) (childNames : List String) (index : Nat) (st : Rewrite) :
    Element → Option (Element × Rewrite)
  | .text _ => none
  | .elem t key attrs (some kids) =>
    let names := slice childNames index (index + kids.length)
    match alterList cl names 0 st kids with
    | some (results, st1) =>
      (cloneElement (some (.elem t key attrs (some kids))) none attrs (some (some results))).map
        (fun clone => (clone, st1))
    | none => none
  | .elem t key attrs none =>
    if t.hasGetBaseProps then injectChild cl childNames index t key attrs st
    else some (.elem t key attrs none, st)
/-- The `reduce` of `alterChildren` from position `index` on. -/
def alterList (cl : Closure) (childNames : List String) (index : Nat) (st : Rewrite) :
    List Element → Option (List Element × Rewrite)
  | [] => some ([], st)
  | child :: rest =>
    match alterChild cl childNames index st child with
    | some (result, st1) =>
      (match alterList cl childNames (index + 1) st1 rest with
       | some (results, st2) => some (result :: results, st2)
       | none => none)
    | none => none
end

/-- The local function `alterChildren(children, childNames)`. -/
def alterChildren (cl : Closure) (children : List Element) (childNames : List String)
    (st : Rewrite) : Option (List Element × Rewrite) :=
  alterList cl childNames 0 st children

/-- The mutable part of the instance at the start of a rewrite. -/
def Instance.rewrite (inst : Instance) : Rewrite :=
  { cache := inst.sharedEventsCache, nextRef := inst.nextRef, injected := [] }

/-- The instance after a rewrite. -/
def Instance.commit (inst : Instance) (st : Rewrite) : Instance :=
  { inst with sharedEventsCache := st.cache, nextRef := st.nextRef }

/-- `getNewChildren(props, baseProps)`. -/
def getNewChildren (lib : Lib) (inst : Instance) (props : Props) (baseProps : BaseProps) :
    Option (List Element × Rewrite) :=
  let cl : Closure :=
    { lib := lib, events := props.events, eventKey := props.eventKey, baseProps := baseProps,
      state := inst.state }
  let childNames := Rec.keys baseProps
  let childComponents := toArray props.children
  alterChildren cl childComponents childNames inst.rewrite

/-! ## The container -/

/-- The `parentProps` of `getContainer`:
`defaults({}, getEventState("parent", "parent"), containerProps, baseProps.parent, { children })`.
An undefined source is skipped. -/
def parentProps (eventState : Option PropRec) (containerProps : PropRec)
    (baseParent : Option PropRec) (children : List Element) : PropRec :=
  [eventState.getD {}, containerProps, baseParent.getD {},
    ({ attrs := [], children := some children } : PropRec)].foldl PropRec.defaults {}

/-- The record `containerProps.events`, when it is one. -/
def declaredEvents (containerProps : PropRec) : Rec Atom :=
  match Rec.get? "events" containerProps.attrs with
  | some (.record handlers) => handlers
  | _ => []

/-- The `containerEvents` of `getContainer`:
`defaults({}, Events.getPartialEvents(parentEvents, "parent", parentProps), containerProps.events)`. -/
def containerEvents (partialEvents : Rec Atom) (containerProps : PropRec) : Rec Atom :=
  [partialEvents, declaredEvents containerProps].foldl (Rec.defaults Atom.isUndef) []

/-- The `parents` and the `sharedEvents` of `getContainer`: the descriptors for the
parent, and a bundle of them (a new object, bound to the name `null`) when there is one,
else `null`. -/
def parentSharedEvents (events : Option (List EventDescriptor)) (baseProps : BaseProps)
    (ref : Nat) : Option Bundle :=
  let parents := events.map (fun es => es.filter (fun event => event.target = some "parent"))
  match parents with
  | some ps =>
    if ps.length > 0 then
      some { ref := ref, events := some ps, name := none, baseProps := baseProps }
    else none
  | none => none

/-- `getContainer(props, baseProps, events)`: the root element and the rewrite state. -/
def getContainer (lib : Lib) (inst : Instance) (props : Props) (baseProps : BaseProps)
    (events : Option (List EventDescriptor)) : Option (Element × Rewrite) :=
  match getNewChildren lib inst props baseProps with
  | none => none
  | some (children, st) =>
    let sharedEvents := parentSharedEvents events baseProps st.nextRef
    let st1 : Rewrite := if sharedEvents.isSome then { st with nextRef := st.nextRef + 1 } else st
    let container :=
      match props.container with
      | some c => some c
      | none => props.groupComponent
    match container with
    | none => none
    | some c =>
      let role := c.type?.bind (fun t => t.role)
      let containerProps := c.props.getD {}
      let parentEvents := sharedEvents.bind (fun b => lib.getEvents inst.state b "parent")
      let parentProps := parentProps (lib.getEventState inst.state "parent" "parent" none)
        containerProps (Rec.get? "parent" baseProps) children
      let containerEvents :=
        containerEvents (lib.getPartialEvents parentEvents "parent" parentProps) containerProps
      let root :=
        if role = some "container" then
          cloneElement (some c) none
            (Rec.assign (Rec.assign [] parentProps.attrs) [("events", Val.record containerEvents)])
            (some parentProps.children)
        else
          cloneElement (some c) none (containerEvents.map (fun kv => (kv.1, Val.atom kv.2)))
            (some (some children))
      root.map (fun r => (r, st1))

/-- `render()`: the rendered root and the rewrite state (unchanged when `getContainer` is
not called). -/
def render (lib : Lib) (inst : Instance) : Option (Element × Rewrite) :=
  let events := getAllEvents lib inst.props
  match events with
  | some es => getContainer lib inst inst.props inst.baseProps (some es)
  | none =>
    (cloneElement inst.props.container none [] (some inst.props.children)).map
      (fun r => (r, inst.rewrite))

/-! ## Lifecycle -/

/-- The constructor: empty state, base props of the initial props, empty cache. -/
def Instance.create (lib : Lib) (props : Props) : Instance :=
  let this : Instance := { props := props, state := [], baseProps := [], sharedEventsCache := [] }
  { this with baseProps := getBaseProps lib this props }

/-- Applying a list of `setState` calls in order. -/
def Instance.setStates (inst : Instance) (calls : List SetStateCall) : Instance × List Effect :=
  calls.foldl (fun acc call =>
    let r := acc.1.setState call
    (r.1, acc.2 ++ r.2)) (inst, [])

/-- `componentDidMount()`. -/
def componentDidMount (lib : Lib) (inst : Instance) : Instance × List Effect :=
  let initialMutations := getMutations lib inst.state inst.props inst.baseProps "initialEventMutations"
  let r := inst.setStates (applyInitialMutations initialMutations.1)
  (r.1, initialMutations.2 ++ r.2)

/-- `shouldComponentUpdate(nextProps)`: the instance afterwards, what was done, and the
returned flag. -/
def shouldComponentUpdate (lib : Lib) (inst : Instance) (nextProps : Props) :
    Option (Instance × List Effect × Bool) :=
  if !Props.isEqual inst.props nextProps then
    let inst1 := { inst with baseProps := getBaseProps lib inst nextProps }
    let externalMutations :=
      getMutations lib inst1.state nextProps inst1.baseProps "externalEventMutations"
    match applyExternalMutations nextProps externalMutations.1 with
    | some calls =>
      let r := inst1.setStates calls
      some (r.1, externalMutations.2 ++ r.2, true)
    | none => none
  else some (inst, [], true)

/-! ## Specification vocabulary -/

/-- Every cached bundle carries the filtered events of the fingerprint it is stored with.
This holds for the empty cache of a new instance and is kept by every store of
`getNewChildren`. -/
def Cache.Coherent (cache : Cache) : Prop :=
  ∀ k b fp, Rec.get? k cache = some (b, fp) → b.events = fp.childEvents

/-- The matching rule in the words of the specification: the `childName` of a descriptor
is an array that contains the name, or it is not an array and equals the name or the
literal `"all"`. -/
def ChildName.Matches (childName : ChildName) (name : Option String) : Prop :=
  match childName with
  | .many names => ∃ n, name = some n ∧ n ∈ names
  | .one s => name = some s ∨ s = "all"
  | .absent => name = none

mutual
/-- The participating leaves of a node, in traversal order: the elements without nested
children whose type has `getBaseProps`. -/
def participants : Element → List Element
  | .text _ => []
  | .elem _ _ _ (some kids) => participantsList kids
  | .elem t key attrs none => if t.hasGetBaseProps then [.elem t key attrs none] else []
/-- The participating leaves of a child list, in traversal order. -/
def participantsList : List Element → List Element
  | [] => []
  | child :: rest => participants child ++ participantsList rest
end

/-- The base-props map of `props` in the words of the specification: the entries
extracted from the children of `props`, and `parent`, the props of its container. -/
def specBaseProps (lib : Lib) (props : Props) : BaseProps :=
  Rec.assign (Rec.assign [] (getBasePropsFromChildren lib (toArray props.children)))
    [("parent",
      match props.container with
      | some c => c.props.getD {}
      | none => {})]

/-- What a `setState` call makes the completion callback invoke. -/
def SetStateCall.invocations (call : SetStateCall) : List Effect :=
  match call.callback with
  | some cbs => runCompiled cbs
  | none => []

/-- What holds of a rewrite state between two steps: the cache is coherent, and every
bundle handed out so far went to a child under the name derived for it
(`child.props.name || childNames[index]`) and carries the events of `props.events` that
pass the filter for that name. -/
def Rewrite.Sound (cl : Closure) (st : Rewrite) : Prop :=
  Cache.Coherent st.cache ∧
  ∀ inj ∈ st.injected,
    (∃ childNames index, inj.name = deriveName inj.child.attrs childNames index) ∧
    inj.sharedEvents.events = childEventsFor cl.events inj.name

/-- No bundle of the log was handed out under a different name with the same cache key
as `name` (the name `undefined` and the name `"undefined"` share the key `"undefined"`). -/
def NoCollision (name : Option String) (log : List Injection) : Prop :=
  ∀ inj ∈ log, propKey inj.name = propKey name → inj.name = name

instance (name : Option String) (log : List Injection) : Decidable (NoCollision name log) := by
  unfold NoCollision
  infer_instance

/-- The bundle `b` is what a run that started in `st0` resolves for `name`: the bundle
cached at the start under a deep-equal fingerprint, or else an object allocated during
the run, with the filtered events of `name`. -/
def Resolved (cl : Closure) (st0 : Rewrite) (name : Option String) (st : Rewrite)
    (b : Bundle) : Prop :=
  getCachedSharedEvents st0.cache name (cacheValuesFor cl name) = some (some b) ∨
  (getCachedSharedEvents st0.cache name (cacheValuesFor cl name) = some none ∧
    st0.nextRef ≤ b.ref ∧ b.ref < st.nextRef ∧ b.events = childEventsFor cl.events name)

/-- The state of the cache entry of `name` during a run that started in `st0`, as long
as no other name shares its key: untouched before the first child of that name, and from
then on the one bundle handed to every child of that name, with the fingerprint of the
name. -/
def RunInv (cl : Closure) (st0 : Rewrite) (name : Option String) (st : Rewrite) : Prop :=
  NoCollision name st.injected →
    st0.nextRef ≤ st.nextRef ∧
    ((∀ inj ∈ st.injected, inj.name ≠ name) →
      Rec.get? (propKey name) st.cache = Rec.get? (propKey name) st0.cache) ∧
    ((∃ inj ∈ st.injected, inj.name = name) →
      ∃ b, Rec.get? (propKey name) st.cache = some (b, cacheValuesFor cl name) ∧
        (∀ inj ∈ st.injected, inj.name = name →
          inj.sharedEvents = b ∧ inj.cacheValues = cacheValuesFor cl name) ∧
        Resolved cl st0 name st b)

mutual
/-- The node and all its descendants are elements (no text node). -/
def Element.allElements : Element → Bool
  | .text _ => false
  | .elem _ _ _ none => true
  | .elem _ _ _ (some kids) => Element.allElementsList kids
/-- All nodes of the child list and their descendants are elements. -/
def Element.allElementsList : List Element → Bool
  | [] => true
  | child :: rest => Element.allElements child && Element.allElementsList rest
end

/-- No entry of the cache is stored under the name of a member inherited from
`Object.prototype`. This holds for the empty cache of a new instance and is kept by
every store of `getNewChildren`, which a lookup of the same name precedes. -/
def Cache.Plain (cache : Cache) : Prop :=
  ∀ k ∈ objectMembers, Rec.get? k cache = none

mutual
/-- The rewrite of the node at `index` under the name list `childNames` meets no text
node and derives for no participating leaf a name that is a member inherited from
`Object.prototype`: the two ways in which the rewrite throws, the second one unless the
cache holds an entry of that name. -/
def Element.rewritable (childNames : List String) (index : Nat) : Element → Bool
  | .text _ => false
  | .elem _ _ _ (some kids) =>
    Element.rewritableList (slice childNames index (index + kids.length)) 0 kids
  | .elem t _ attrs none =>
    !t.hasGetBaseProps || !objectMembers.contains (propKey (deriveName attrs childNames index))
/-- The rewrite of the child list from `index` on meets no text node and derives no
inherited member name. -/
def Element.rewritableList (childNames : List String) (index : Nat) : List Element → Bool
  | [] => true
  | child :: rest =>
    Element.rewritable childNames index child &&
      Element.rewritableList childNames (index + 1) rest
end

/-- What the rewrite returns for an element that does not take the injection branch: a
child without nested children and without `getBaseProps` is returned itself; a child with
nested children is cloned with its own props and a rewritten child list of the same
length. Nothing is said here of a participating leaf. -/
def PassedThrough (child result : Element) : Prop :=
  match child with
  | .text _ => False
  | .elem t _ _ none => t.hasGetBaseProps = false → result = child
  | .elem t key attrs (some kids) =>
    ∃ results, results.length = kids.length ∧
      result = .elem t key (Rec.assign attrs attrs) (some results)

/-! ## A concrete setting

A small library and a few elements on which the statements below are evaluated. -/

/-- The child name `reduceChildren` hands to the iteratee in the sample library: the
`name` prop of the child, or else its index. -/
def sampleChildName (child : Element) (index : Nat) : String :=
  match child with
  | .elem _ _ attrs _ =>
    (match Rec.get? "name" attrs with
     | some (.atom (.str s)) => if s ≠ "" then s else toString index
     | _ => toString index)
  | .text _ => toString index

/-- A `reduceChildren` for flat child lists: the results of the iteratee, concatenated. -/
def sampleReduceFrom (it : Element → String → Option (List (String × PropRec))) :
    Nat → List Element → List (String × PropRec)
  | _, [] => []
  | index, child :: rest =>
    (it child (sampleChildName child index)).getD [] ++ sampleReduceFrom it (index + 1) rest

/-- A sample library: `getBaseProps` returns the props of the child, the mutation engine
writes the slice `data 1` for the child `"0"`, `getEventState` reads the record stored
under the event key, and no component contributes events. -/
def sampleLib : Lib where
  stringify := fun v =>
    match v with
    | none => none
    | some (.atom (.str s)) => some s
    | some _ => some "[object]"
  getBaseProps := fun _ p => some p
  reduceChildren := fun children it => sampleReduceFrom it 0 children
  getComponentEvents := fun _ _ => none
  getExternalMutationsWithChildren := fun _ _ _ _ => some [("0", .atom (.data 1))]
  getEventState := fun state eventKey _ _ =>
    match Rec.get? eventKey state with
    | some (.record fields) => some { attrs := fields.map (fun kv => (kv.1, Val.atom kv.2)) }
    | _ => none
  getEvents := fun _ _ _ => none
  getPartialEvents := fun _ _ _ => []

/-- A participating component. -/
def victoryBar : CompType := { tag := "VictoryBar", hasGetBaseProps := true }

/-- A host element type without any capability. -/
def hostG : CompType := { tag := "g" }

/-- A container type with the role `"container"`. -/
def victoryContainer : CompType := { tag := "VictoryContainer", role := some "container" }

/-- A participating leaf without a `name` prop. -/
def barChild : Element := .elem victoryBar none [] none

/-- A plain `<g/>`. -/
def plainG : Element := .elem hostG none [] none

/-- The layering scenario: the container's own props. -/
def layeringContainerProps : PropRec := { attrs := [("fill", .atom (.str "blue"))] }

/-- The layering scenario: the parent entry of the base-props map. -/
def layeringBaseParent : PropRec :=
  { attrs := [("fill", .atom (.str "green")), ("x", .atom (.num 1))] }

/-- The layering scenario: the parent event-state patch. -/
def layeringEventState : PropRec := { attrs := [("fill", .atom (.str "red"))] }

/-- The layering scenario as an instance: the patch is the state slice `parent`, the
container has the role `"container"` and the props `{ fill: "blue" }`. -/
def layeringInstance : Instance :=
  { props :=
      { container := some (.elem victoryContainer none layeringContainerProps.attrs none),
        events := some [] }
    state := [("parent", .record [("fill", .str "red")])]
    baseProps := [("parent", layeringBaseParent)] }

/-- An instance with one participating child and one external mutation that has a
function callback. -/
def mutationProps : Props :=
  { children := some [barChild]
    externalEventMutations := some [{ mutation := .fn 8, callback := .fn 7 }] }

/-- The instance constructed from `mutationProps`. -/
def mutationInstance : Instance := Instance.create sampleLib mutationProps

/-- An instance mounted with one participating child. -/
def staleInstance : Instance := Instance.create sampleLib { children := some [barChild] }

/-- New props without children. -/
def staleNextProps : Props := { children := none }

/-- Props with an empty `events` array, a container and one participating child. -/
def emptyEventsProps : Props :=
  { children := some [barChild]
    container := some (.elem victoryContainer none [] none)
    events := some [] }

/-- The instance constructed from `emptyEventsProps`. -/
def emptyEventsInstance : Instance := Instance.create sampleLib emptyEventsProps

/-- Props without `events`, with a container and one participating child. -/
def noEventsProps : Props :=
  { children := some [barChild]
    container := some (.elem victoryContainer none [] none) }

/-- The instance constructed from `noEventsProps`. -/
def noEventsInstance : Instance := Instance.create sampleLib noEventsProps

/-- Two successive runs of `getNewChildren`: the first on `inst` with `props1` and
`baseProps1`, the second on the instance the first one leaves, with the state `state2`,
`props2` and `baseProps2`. The result holds the rewrite states after the two runs. -/
def runTwice (lib : Lib) (inst : Instance) (props1 : Props) (baseProps1 : BaseProps)
    (state2 : State) (props2 : Props) (baseProps2 : BaseProps) : Option (Rewrite × Rewrite) :=
  match getNewChildren lib inst props1 baseProps1 with
  | some (_, first) =>
    (match getNewChildren lib { inst.commit first with state := state2 } props2 baseProps2 with
     | some (_, second) => some (first, second)
     | none => none)
  | none => none

/-- A participating leaf with the explicit name `"undefined"`. -/
def namedUndefined : Element := .elem victoryBar none [("name", .atom (.str "undefined"))] none

/-- A child list in which the last child, at index 3, finds no name in
`keys(baseProps)`: a named participating leaf, two plain elements, an unnamed
participating leaf. -/
def collisionProps : Props :=
  { children := some [namedUndefined, plainG, plainG, barChild], events := some [] }

/-- The instance constructed from `collisionProps`. -/
def collisionInstance : Instance := Instance.create sampleLib collisionProps

/-- A child list with a text node. -/
def textProps : Props := { children := some [.text "hello", plainG], events := some [] }

/-- The instance constructed from `textProps`. -/
def textInstance : Instance := Instance.create sampleLib textProps

/-- A descriptor for the data of every child. -/
def allDataEvent : EventDescriptor :=
  { childName := .one "all", target := some "data", eventHandlers := .data 1 }

/-- A container type whose default events the sample library below reports. -/
def customContainer : CompType := { tag := "CustomContainer", role := some "container" }

/-- The sample library with a `getComponentEvents` that reports the default event
`allDataEvent` of a `customContainer`. -/
def contributingLib : Lib :=
  { sampleLib with
    getComponentEvents := fun props _ =>
      match props.container with
      | some (.elem t _ _ _) => if t = customContainer then some [allDataEvent] else none
      | _ => none }

/-- Props without `events`, with a `customContainer` and one participating child. -/
def contributedProps : Props :=
  { children := some [barChild], container := some (.elem customContainer none [] none) }

/-- The instance constructed from `contributedProps`. -/
def contributedInstance : Instance := Instance.create contributingLib contributedProps

/-- Props with two descriptors and two participating children, one of them named. -/
def matchingProps : Props :=
  { children := some [barChild, .elem victoryBar none [("name", .atom (.str "line"))] none]
    container := some (.elem victoryContainer none [] none)
    events := some
      [{ childName := .one "all", target := some "data" },
       { childName := .many ["line"], target := some "labels" },
       { childName := .one "all", target := some "parent" }] }

/-- The instance constructed from `matchingProps`. -/
def matchingInstance : Instance := Instance.create sampleLib matchingProps

/-- The run of `getNewChildren` on `matchingInstance`. -/
def matchingRun : List Element × Rewrite :=
  (getNewChildren sampleLib matchingInstance matchingProps matchingInstance.baseProps).getD
    ([], { cache := [], nextRef := 0 })

/-- The rendering of `matchingInstance`. -/
def matchingRender : Element × Rewrite :=
  (render sampleLib matchingInstance).getD (plainG, { cache := [], nextRef := 0 })

/-- A participating leaf named `"a"`. -/
def barA : Element := .elem victoryBar none [("name", .atom (.str "a"))] none

/-- A participating leaf named `"b"`. -/
def barB : Element := .elem victoryBar none [("name", .atom (.str "b"))] none

/-- Two participating leaves named `"a"` and `"b"`. -/
def renameProps : Props := { children := some [barA, barB], events := some [allDataEvent] }

/-- The same props after the first child was renamed to `"b"`. -/
def renamedProps : Props := { children := some [barB, barB], events := some [allDataEvent] }

/-- The instance constructed from `renameProps`. -/
def renameInstance : Instance := Instance.create sampleLib renameProps

/-- The state in which the slice of the child `"line"` has changed. -/
def hoverState : State := [("line", .atom (.str "hover"))]

/-- The first of two runs on `matchingInstance`. -/
def firstRun : List Element × Rewrite :=
  (getNewChildren sampleLib matchingInstance matchingProps matchingInstance.baseProps).getD
    ([], { cache := [], nextRef := 0 })

/-- The instance after the first run, with the state `hoverState`. -/
def secondInstance : Instance := { matchingInstance.commit firstRun.2 with state := hoverState }

/-- The second run, on `secondInstance`. -/
def secondRun : List Element × Rewrite :=
  (getNewChildren sampleLib secondInstance matchingProps matchingInstance.baseProps).getD
    ([], { cache := [], nextRef := 0 })

/-- The record has no key twice, as every JS object. -/
def Rec.Distinct {α : Type} (o : Rec α) : Prop := (o.map Prod.fst).Nodup

instance {α : Type} (o : Rec α) : Decidable (Rec.Distinct o) := by
  unfold Rec.Distinct
  infer_instance

/-- A participating leaf that has props of its own under two of the injected names. -/
def ownPropsChild : Element :=
  .elem victoryBar (some "mine")
    [("name", .atom (.str "line")), ("eventKey", .atom (.str "x")), ("size", .atom (.num 3))]
    none

/-- The sample library with a `getPartialEvents` that resolves the parent handlers
`onClick` (function 1) and `onFocus` (function 4). -/
def handlerLib : Lib :=
  { sampleLib with
    getPartialEvents := fun _ _ _ => [("onClick", .fn 1), ("onFocus", .fn 4)] }

/-- A container with the role `"container"` that declares the handlers `onClick`
(function 2) and `onBlur` (function 3) in its own `events` prop. -/
def handlerContainer : Element :=
  .elem victoryContainer none
    [("events", .record [("onClick", .fn 2), ("onBlur", .fn 3)])] none

/-- Props with the container `handlerContainer` and one event for the parent. -/
def handlerProps : Props :=
  { children := some [barChild]
    container := some handlerContainer
    events := some [{ childName := .one "all", target := some "parent" }] }

/-- The instance constructed from `handlerProps`. -/
def handlerInstance : Instance := Instance.create handlerLib handlerProps

/-- The `children` of a node; a text node has none. -/
def Element.kids : Element → Option (List Element)
  | .text _ => none
  | .elem _ _ _ children => children

/-- Props whose container has the role `"container"` and a child of its own. -/
def ownChildrenProps : Props :=
  { children := some [barChild]
    container := some (.elem victoryContainer none [] (some [plainG]))
    events := some [allDataEvent] }

/-- The instance constructed from `ownChildrenProps`. -/
def ownChildrenInstance : Instance := Instance.create sampleLib ownChildrenProps

/-- Props whose container is a plain `<g>` with a child of its own. -/
def groupChildrenProps : Props :=
  { children := some [barChild]
    container := some (.elem hostG none [] (some [plainG]))
    events := some [allDataEvent] }

/-- The instance constructed from `groupChildrenProps`. -/
def groupChildrenInstance : Instance := Instance.create sampleLib groupChildrenProps

/-- The result of `getContainer` on `groupChildrenInstance`. -/
def groupChildrenRoot : Element × Rewrite :=
  (getContainer sampleLib groupChildrenInstance groupChildrenProps
    groupChildrenInstance.baseProps groupChildrenProps.events).getD
    (plainG, { cache := [], nextRef := 0 })

/-- The result of `getContainer` on `handlerInstance`. -/
def handlerRoot : Element × Rewrite :=
  (getContainer handlerLib handlerInstance handlerProps handlerInstance.baseProps
    handlerProps.events).getD (plainG, { cache := [], nextRef := 0 })

/-- Props with one participating child and one initial mutation. -/
def initialProps : Props :=
  { children := some [barChild], initialEventMutations := some [{ mutation := .fn 8 }] }

/-- The instance constructed from `initialProps` and mounted. -/
def mountedInstance : Instance :=
  (componentDidMount sampleLib (Instance.create sampleLib initialProps)).1

/-- A participating leaf with the name `"constructor"`. -/
def constructorProps : Props :=
  { children := some [.elem victoryBar none [("name", .atom (.str "constructor"))] none]
    events := some [] }

/-- The cache of a new instance after the given stores, in order. -/
def storeAll (stores : List (Option String × Bundle × Fingerprint)) : Cache :=
  stores.foldl (fun cache s => cacheSharedEvents cache s.1 s.2.1 s.2.2) []

mutual
/-- Modelled from the spec: the traversal of `Helpers.reduceChildren` (victory-core),
which is not among the sources. The specification says of the extractor that it walks
the possibly nested child collection, keys each child by positional index or explicit
name, and traverses into a child that contains nested children but does not expose base
props, flattening names in traversal order. Here the positional index counts the
children that are not traversed into, in traversal order; the result is the list of the
pairs the iteratee returns and the next index. -/
def specReduceChild (it : Element → String → Option (List (String × PropRec))) (index : Nat) :
    Element → List (String × PropRec) × Nat
  | .text s => ((it (.text s) (toString index)).getD [], index + 1)
  | .elem t key attrs none =>
    ((it (.elem t key attrs none) (sampleChildName (.elem t key attrs none) index)).getD [],
      index + 1)
  | .elem t key attrs (some kids) =>
    if t.hasGetBaseProps then
      ((it (.elem t key attrs (some kids))
          (sampleChildName (.elem t key attrs (some kids)) index)).getD [], index + 1)
    else specReduceList it index kids
/-- Modelled from the spec: the traversal of a child list, see `specReduceChild`. -/
def specReduceList (it : Element → String → Option (List (String × PropRec))) (index : Nat) :
    List Element → List (String × PropRec) × Nat
  | [] => ([], index)
  | child :: rest =>
    ((specReduceChild it index child).1 ++
        (specReduceList it (specReduceChild it index child).2 rest).1,
      (specReduceList it (specReduceChild it index child).2 rest).2)
end

/-- The sample library with the traversal of the specification as `reduceChildren`. -/
def specLib : Lib :=
  { sampleLib with reduceChildren := fun children it => (specReduceList it 0 children).1 }

/-- A plain element before a participating leaf. -/
def shiftedProps : Props := { children := some [plainG, barChild], events := some [] }

/-- The instance constructed from `shiftedProps`. -/
def shiftedInstance : Instance := Instance.create specLib shiftedProps

/-- Two plain elements before a participating leaf. -/
def shiftedTwiceProps : Props :=
  { children := some [plainG, plainG, barChild], events := some [] }

/-- The instance constructed from `shiftedTwiceProps`. -/
def shiftedTwiceInstance : Instance := Instance.create specLib shiftedTwiceProps

/-- A group of two participating leaves, followed by a third participating leaf. -/
def groupedProps : Props :=
  { children := some [.elem hostG none [] (some [barChild, barChild]), barChild]
    events := some [] }

/-- The instance constructed from `groupedProps`. -/
def groupedInstance : Instance := Instance.create specLib groupedProps

/-- A single text node as child list. -/
def numberProps : Props := { children := some [.text "42"], events := some [] }

/-- A group whose only nested child is a text node. -/
def nestedTextProps : Props :=
  { children := some [.elem hostG none [] (some [.text "hello"])], events := some [] }

/-- The clone that the injection branch makes of a participating leaf for a derived name
and a bundle: `React.cloneElement(child, assign({ key, sharedEvents, eventKey, name },
child.props))`. -/
def injectedClone (cl : Closure) (t : CompType) (key : Option String) (attrs : Obj)
    (name : Option String) (sharedEvents : Bundle) : Element :=
  .elem t ((configKey (Rec.assign (injectedRecord cl name sharedEvents) attrs)).elim key some)
    (Rec.assign attrs (configProps (Rec.assign (injectedRecord cl name sharedEvents) attrs)))
    none

mutual
/-- The output element `result` stems from the input child: it is the clone of a child
with nested children, with the child's own props and a child list that stems from the
nested children; or the clone of a participating leaf with injected props; or the child
itself. -/
def Stems (cl : Closure) : Element → Element → Prop
  | .text _, _ => False
  | .elem t key attrs (some kids), result =>
    ∃ results, result = .elem t key (Rec.assign attrs attrs) (some results) ∧
      StemsList cl kids results
  | .elem t key attrs none, result =>
    if t.hasGetBaseProps then
      ∃ name sharedEvents, result = injectedClone cl t key attrs name sharedEvents
    else result = .elem t key attrs none
/-- The output list stems from the input list, element by element. -/
def StemsList (cl : Closure) : List Element → List Element → Prop
  | [], results => results = []
  | child :: rest, results =>
    ∃ r rs, results = r :: rs ∧ Stems cl child r ∧ StemsList cl rest rs
end

mutual
/-- The shape of a tree: every node with its type, without key and props. -/
def Element.skeleton : Element → Element
  | .text _ => .text ""
  | .elem t _ _ none => .elem t none [] none
  | .elem t _ _ (some kids) => .elem t none [] (some (Element.skeletonList kids))
/-- The shapes of the trees of a list. -/
def Element.skeletonList : List Element → List Element
  | [] => []
  | child :: rest => Element.skeleton child :: Element.skeletonList rest
end

/-- A child list with a group, a participating leaf in it, and a plain element. -/
def shapeChildren : List Element :=
  [.elem hostG (some "k") [("id", .atom (.str "g"))] (some [barChild, plainG]), plainG, barChild]

end VictorySharedEvents

/-! # Theorems -/

namespace VictorySharedEvents

/-! ## Records -/

theorem Rec.get?_set_self {α : Type} (k : String) (v : α) (o : Rec α) :
    Rec.get? k (Rec.set k v o) = some v := by
  induction o with
  | nil => simp [Rec.set, Rec.get?]
  | cons kv rest ih =>
    obtain ⟨k1, v1⟩ := kv
    by_cases h : k1 = k
    · simp [Rec.set, Rec.get?, h]
    · simp [Rec.set, Rec.get?, h, ih]

theorem Rec.get?_set_ne {α : Type} (k k2 : String) (v : α) (o : Rec α) (hne : k ≠ k2) :
    Rec.get? k2 (Rec.set k v o) = Rec.get? k2 o := by
  induction o with
  | nil => simp [Rec.set, Rec.get?, hne]
  | cons kv rest ih =>
    obtain ⟨k1, v1⟩ := kv
    by_cases h : k1 = k
    · subst h
      simp [Rec.set, Rec.get?, hne]
    · by_cases h2 : k1 = k2
      · subst h2
        simp [Rec.set, Rec.get?, h]
      · simp [Rec.set, Rec.get?, h, h2, ih]

/-- A key that `dest` defines keeps its value under `defaults`. -/
theorem Rec.defaults_keep {α : Type} (isUndef : α → Bool) (k : String) (v : α)
    (src dest : Rec α) (hd : Rec.get? k dest = some v) (hv : isUndef v = false) :
    Rec.get? k (Rec.defaults isUndef dest src) = some v := by
  induction src generalizing dest with
  | nil => simpa [Rec.defaults] using hd
  | cons kv rest ih =>
    obtain ⟨k1, v1⟩ := kv
    simp only [Rec.defaults, List.foldl_cons] at ih ⊢
    apply ih
    by_cases h : k1 = k
    · subst h
      simp [hd, hv]
    · cases hg : Rec.get? k1 dest with
      | none => simp [Rec.get?_set_ne k1 k v1 dest h, hd]
      | some x =>
        by_cases hx : isUndef x = true
        · simp [hx, Rec.get?_set_ne k1 k v1 dest h, hd]
        · simp [hx, hd]

/-- A key that `dest` leaves undefined takes the defined value `src` has for it. -/
theorem Rec.defaults_fill {α : Type} (isUndef : α → Bool) (k : String) (v : α)
    (src dest : Rec α) (hd : ∀ w, Rec.get? k dest = some w → isUndef w = true)
    (hs : Rec.get? k src = some v) (hv : isUndef v = false) :
    Rec.get? k (Rec.defaults isUndef dest src) = some v := by
  induction src generalizing dest with
  | nil => simp [Rec.get?] at hs
  | cons kv rest ih =>
    obtain ⟨k1, v1⟩ := kv
    by_cases h : k1 = k
    · subst h
      simp only [Rec.get?, if_true, Option.some.injEq] at hs
      subst hs
      have hset : Rec.get? k1 (Rec.set k1 v1 dest) = some v1 := Rec.get?_set_self k1 v1 dest
      have := Rec.defaults_keep isUndef k1 v1 rest (Rec.set k1 v1 dest) hset hv
      simp only [Rec.defaults, List.foldl_cons] at this ⊢
      cases hg : Rec.get? k1 dest with
      | none => simpa using this
      | some x => simpa [hd x hg] using this
    · simp only [Rec.get?, h, if_false] at hs
      simp only [Rec.defaults, List.foldl_cons] at ih ⊢
      apply ih _ _ hs
      intro w hw
      cases hg : Rec.get? k1 dest with
      | none =>
        simp only [hg] at hw
        rw [Rec.get?_set_ne k1 k v1 dest h] at hw
        exact hd w hw
      | some x =>
        simp only [hg] at hw
        by_cases hx : isUndef x = true
        · simp only [hx, if_true] at hw
          rw [Rec.get?_set_ne k1 k v1 dest h] at hw
          exact hd w hw
        · simp only [hx] at hw
          exact hd w hw

/-- A key that `dest` leaves undefined and for which `src` has only undefined entries
stays undefined. -/
theorem Rec.defaults_skip {α : Type} (isUndef : α → Bool) (k : String)
    (src dest : Rec α) (hd : ∀ w, Rec.get? k dest = some w → isUndef w = true)
    (hs : ∀ w, (k, w) ∈ src → isUndef w = true) :
    ∀ w, Rec.get? k (Rec.defaults isUndef dest src) = some w → isUndef w = true := by
  induction src generalizing dest with
  | nil => simpa [Rec.defaults] using hd
  | cons kv rest ih =>
    obtain ⟨k1, v1⟩ := kv
    simp only [Rec.defaults, List.foldl_cons] at ih ⊢
    apply ih
    · intro w hw
      by_cases h : k1 = k
      · subst h
        have hv1 : isUndef v1 = true := hs v1 (by simp)
        cases hg : Rec.get? k1 dest with
        | none =>
          simp only [hg] at hw
          rw [Rec.get?_set_self] at hw
          cases hw; exact hv1
        | some x =>
          simp only [hg, hd x hg, if_true] at hw
          rw [Rec.get?_set_self] at hw
          cases hw; exact hv1
      · cases hg : Rec.get? k1 dest with
        | none =>
          simp only [hg] at hw
          rw [Rec.get?_set_ne k1 k v1 dest h] at hw
          exact hd w hw
        | some x =>
          simp only [hg] at hw
          by_cases hx : isUndef x = true
          · simp only [hx, if_true] at hw
            rw [Rec.get?_set_ne k1 k v1 dest h] at hw
            exact hd w hw
          · simp only [hx] at hw
            exact hd w hw
    · intro w hw
      exact hs w (List.mem_cons_of_mem _ hw)

/-! ## Layering of the parent props -/

theorem parentProps_attrs (eventState : Option PropRec) (containerProps : PropRec)
    (baseParent : Option PropRec) (children : List Element) :
    (parentProps eventState containerProps baseParent children).attrs =
      Rec.defaults Val.isUndef
        (Rec.defaults Val.isUndef
          (Rec.defaults Val.isUndef [] (eventState.getD {}).attrs) containerProps.attrs)
        (baseParent.getD {}).attrs := by
  simp [parentProps, PropRec.defaults, Rec.defaults]

/-- C5, counterexample. In the scenario of the claim the final parent props have
`fill = "red"`, not `"blue"`: the conjunction the claim asserts is false, both for the
`parentProps` of `getContainer` and for the props of the root it returns. -/
theorem layering_scenario_fill_is_not_blue :
    ¬ (Rec.get? "fill" (parentProps (some layeringEventState) layeringContainerProps
          (some layeringBaseParent) []).attrs = some (.atom (.str "blue")) ∧
       Rec.get? "x" (parentProps (some layeringEventState) layeringContainerProps
          (some layeringBaseParent) []).attrs = some (.atom (.num 1))) ∧
    ((getContainer sampleLib layeringInstance layeringInstance.props
        layeringInstance.baseProps (some [])).bind (fun r => r.1.props)).map
      (fun p => (Rec.get? "fill" p.attrs, Rec.get? "x" p.attrs)) =
      some (some (.atom (.str "red")), some (.atom (.num 1))) := by
  decide

/-- C5, amended. In the `parentProps` of `getContainer` a key that the parent event-state
patch defines carries the value of the patch; a key that the patch leaves undefined and
the container's own props define carries the container's value, overriding the parent
base props; a key that only the parent base props define carries their value. -/
theorem parentProps_layering (eventState : Option PropRec) (containerProps : PropRec)
    (baseParent : Option PropRec) (children : List Element) (k : String) (v : Val)
    (hv : v.isUndef = false) :
    (Rec.get? k (eventState.getD {}).attrs = some v →
      Rec.get? k (parentProps eventState containerProps baseParent children).attrs = some v) ∧
    ((∀ w, (k, w) ∈ (eventState.getD {}).attrs → w.isUndef = true) →
      Rec.get? k containerProps.attrs = some v →
      Rec.get? k (parentProps eventState containerProps baseParent children).attrs = some v) ∧
    ((∀ w, (k, w) ∈ (eventState.getD {}).attrs → w.isUndef = true) →
      (∀ w, (k, w) ∈ containerProps.attrs → w.isUndef = true) →
      Rec.get? k (baseParent.getD {}).attrs = some v →
      Rec.get? k (parentProps eventState containerProps baseParent children).attrs = some v) := by
  rw [parentProps_attrs]
  have h0 : ∀ w, Rec.get? k ([] : Obj) = some w → Val.isUndef w = true := by
    intro w hw; simp [Rec.get?] at hw
  refine ⟨?_, ?_, ?_⟩
  · intro h1
    apply Rec.defaults_keep _ _ _ _ _ _ hv
    apply Rec.defaults_keep _ _ _ _ _ _ hv
    exact Rec.defaults_fill _ _ _ _ _ h0 h1 hv
  · intro h1 h2
    apply Rec.defaults_keep _ _ _ _ _ _ hv
    exact Rec.defaults_fill _ _ _ _ _ (Rec.defaults_skip _ _ _ _ h0 h1) h2 hv
  · intro h1 h2 h3
    exact Rec.defaults_fill _ _ _ _ _
      (Rec.defaults_skip _ _ _ _ (Rec.defaults_skip _ _ _ _ h0 h1) h2) h3 hv

/-- C5, the amended statement at the scenario of the claim: `fill` resolves to the value
of the patch, `"red"`, and `x = 1` of the parent base props is preserved. -/
theorem parentProps_layering_witness :
    Rec.get? "fill" (parentProps (some layeringEventState) layeringContainerProps
        (some layeringBaseParent) []).attrs = some (.atom (.str "red")) ∧
    Rec.get? "x" (parentProps (some layeringEventState) layeringContainerProps
        (some layeringBaseParent) []).attrs = some (.atom (.num 1)) :=
  ⟨(parentProps_layering (some layeringEventState) layeringContainerProps
      (some layeringBaseParent) [] "fill" (.atom (.str "red")) rfl).1 (by decide),
   (parentProps_layering (some layeringEventState) layeringContainerProps
      (some layeringBaseParent) [] "x" (.atom (.num 1)) rfl).2.2
      (by intro w hw; simp [layeringEventState] at hw)
      (by intro w hw; simp [layeringContainerProps] at hw) (by decide)⟩

/-! ## Lifecycle: gating and callbacks -/

/-- C2. When `nextProps` deep-equals the current props, `shouldComponentUpdate` does
nothing: the instance (base props, state, cache) is as it was, no engine call, no
`setState` and no callback invocation is made, and `true` is returned, whatever
`externalEventMutations` holds. -/
theorem shouldComponentUpdate_equal_props (lib : Lib) (inst : Instance) (nextProps : Props)
    (h : Props.isEqual inst.props nextProps = true) :
    shouldComponentUpdate lib inst nextProps = some (inst, [], true) := by
  simp [shouldComponentUpdate, h]

/-- C2 at an instance whose `externalEventMutations` has a function callback. -/
theorem shouldComponentUpdate_equal_props_witness :
    Props.isEqual mutationInstance.props mutationProps = true ∧
    shouldComponentUpdate sampleLib mutationInstance mutationProps =
      some (mutationInstance, [], true) :=
  ⟨by decide,
   shouldComponentUpdate_equal_props sampleLib mutationInstance mutationProps (by decide)⟩

theorem collectCallbacks_fold (mutations : List MutationDescriptor) (memo : List Atom) :
    mutations.foldl
      (fun memo mutation =>
        if isFunction mutation.callback then memo ++ [mutation.callback] else memo) memo =
      memo ++ (mutations.filter (fun m => isFunction m.callback)).map (fun m => m.callback) := by
  induction mutations generalizing memo with
  | nil => simp
  | cons m rest ih =>
    by_cases hm : isFunction m.callback = true
    · simp [List.foldl_cons, ih, hm]
    · simp [List.foldl_cons, ih, hm]

theorem collectCallbacks_eq (mutations : List MutationDescriptor) :
    collectCallbacks mutations =
      (mutations.filter (fun m => isFunction m.callback)).map (fun m => m.callback) := by
  simp [collectCallbacks, collectCallbacks_fold]

/-- A non-empty patch of `getMutations` comes from an `externalEventMutations` array. -/
theorem getMutations_some (lib : Lib) (state : State) (props : Props) (baseProps : BaseProps)
    (patch : State)
    (h : (getMutations lib state props baseProps "externalEventMutations").1 = some patch) :
    ∃ mutations, props.externalEventMutations = some mutations := by
  cases hm : props.externalEventMutations with
  | none => simp [getMutations, Props.mutations, hm] at h
  | some ms => exact ⟨ms, rfl⟩

/-- C9. With an empty or undefined patch `applyExternalMutations` makes no `setState`
call (and so invokes nothing). With a non-empty patch it makes exactly one `setState`
call, with that patch; the completion callback of the call invokes the function-valued
`callback`s of `props.externalEventMutations`, each once, in declaration order, and
nothing else; it is `undefined` exactly when no descriptor has a function callback; React
merges the patch and then runs the completion callback. The patch that
`shouldComponentUpdate` passes is non-empty only when the array is there. -/
theorem applyExternalMutations_callbacks (props : Props) (externalMutations : Option State) :
    ((externalMutations = none ∨ externalMutations = some []) →
      applyExternalMutations props externalMutations = some []) ∧
    (∀ patch mutations, externalMutations = some patch → patch ≠ [] →
      props.externalEventMutations = some mutations →
      ∃ call, applyExternalMutations props externalMutations = some [call] ∧
        call.patch = patch ∧
        call.invocations =
          (mutations.filter (fun m => isFunction m.callback)).map
            (fun m => Effect.invoke m.callback) ∧
        (call.callback = none ↔ ∀ m ∈ mutations, isFunction m.callback = false) ∧
        ∀ inst : Instance, inst.setStates [call] =
          ({ inst with state := Rec.assign inst.state patch },
           Effect.setState call :: call.invocations)) ∧
    (∀ lib state baseProps patch,
      (getMutations lib state props baseProps "externalEventMutations").1 = some patch →
      ∃ mutations, props.externalEventMutations = some mutations) := by
  refine ⟨?_, ?_, ?_⟩
  · rintro (h | h) <;> simp [applyExternalMutations, h]
  · intro patch mutations hp hne hm
    subst hp
    have hne2 : patch.isEmpty = false := by
      cases patch with
      | nil => exact absurd rfl hne
      | cons a l => rfl
    by_cases hc : collectCallbacks mutations = []
    · refine ⟨{ patch := patch, callback := none }, ?_, rfl, ?_, ?_, ?_⟩
      · simp [applyExternalMutations, hne2, hm, hc]
      · rw [collectCallbacks_eq] at hc
        simp only [List.map_eq_nil_iff] at hc
        simp [SetStateCall.invocations, hc]
      · rw [collectCallbacks_eq] at hc
        simp only [List.map_eq_nil_iff, List.filter_eq_nil_iff] at hc
        simpa using hc
      · intro inst
        simp [Instance.setStates, Instance.setState, SetStateCall.invocations]
    · refine ⟨{ patch := patch, callback := some (collectCallbacks mutations) }, ?_, rfl, ?_, ?_, ?_⟩
      · have : (collectCallbacks mutations).length ≠ 0 := by
          simpa [List.length_eq_zero] using hc
        simp [applyExternalMutations, hne2, hm, this]
      · simp [SetStateCall.invocations, runCompiled, collectCallbacks_eq]
      · rw [collectCallbacks_eq] at hc
        simp only [List.map_eq_nil_iff, List.filter_eq_nil_iff] at hc
        constructor
        · intro h; cases h
        · intro h; exact absurd (by simpa using h) hc
      · intro inst
        simp [Instance.setStates, Instance.setState, SetStateCall.invocations]
  · intro lib state baseProps patch h
    exact getMutations_some lib state props baseProps patch h

/-- C9 at a list of three descriptors of which the first and the last have a function
callback: one `setState` call, whose completion callback invokes the two in order. -/
theorem applyExternalMutations_callbacks_witness :
    ∃ call,
      applyExternalMutations
        { externalEventMutations :=
            some [{ callback := .fn 1 }, { callback := .str "x" }, { callback := .fn 2 }] }
        (some [("0", .atom (.data 1))]) = some [call] ∧
      call.patch = [("0", .atom (.data 1))] ∧
      call.invocations = [Effect.invoke (.fn 1), Effect.invoke (.fn 2)] := by
  obtain ⟨call, h1, h2, h3, _, _⟩ :=
    (applyExternalMutations_callbacks
      { externalEventMutations :=
          some [{ callback := .fn 1 }, { callback := .str "x" }, { callback := .fn 2 }] }
      (some [("0", .atom (.data 1))])).2.1 [("0", .atom (.data 1))]
      [{ callback := .fn 1 }, { callback := .str "x" }, { callback := .fn 2 }] rfl (by decide) rfl
  exact ⟨call, h1, h2, by rw [h3]; decide⟩

/-- `shouldComponentUpdate` always returns; after a change of props the base props are
those `getBaseProps` computes from the new props and the children of the current props. -/
theorem shouldComponentUpdate_baseProps (lib : Lib) (inst : Instance) (nextProps : Props)
    (h : Props.isEqual inst.props nextProps = false) :
    ∃ r, shouldComponentUpdate lib inst nextProps = some r ∧
      r.1.baseProps = getBaseProps lib inst nextProps := by
  have hstate : ∀ (i : Instance) (calls : List SetStateCall),
      (i.setStates calls).1.baseProps = i.baseProps := by
    intro i calls
    have : ∀ (acc : Instance × List Effect),
        (calls.foldl (fun acc call => ((acc.1.setState call).1, acc.2 ++ (acc.1.setState call).2))
          acc).1.baseProps = acc.1.baseProps := by
      induction calls with
      | nil => intro acc; rfl
      | cons c cs ih => intro acc; simp only [List.foldl_cons]; rw [ih]; rfl
    exact this (i, [])
  simp only [shouldComponentUpdate, h]
  cases hm : (getMutations lib inst.state nextProps (getBaseProps lib inst nextProps)
      "externalEventMutations").1 with
  | none => simp [applyExternalMutations, hm, Instance.setStates]
  | some patch =>
    obtain ⟨ms, hms⟩ := getMutations_some lib _ nextProps _ patch hm
    by_cases hp : patch.isEmpty = true
    · simp [applyExternalMutations, hm, hp, Instance.setStates]
    · simp only [Bool.not_eq_true] at hp
      simp [applyExternalMutations, hm, hp, hms, hstate]

/-- C7, the code at the failing input. The instance was mounted with one participating
child; the new props have no children. The props differ, and after
`shouldComponentUpdate` the base props still hold the entry `"0"` extracted from the
previous children, while the base-props map of the new props has the entry `parent` only. -/
theorem shouldComponentUpdate_reads_previous_children :
    Props.isEqual staleInstance.props staleNextProps = false ∧
    (shouldComponentUpdate sampleLib staleInstance staleNextProps).map
        (fun r => r.1.baseProps) =
      some [("0", ({} : PropRec)), ("parent", {})] ∧
    specBaseProps sampleLib staleNextProps = [("parent", {})] := by
  decide

/-! ## Rendering without events -/

/-- C6, counterexample. With an empty `events` array (truthy) `render` does not take the
short circuit: `getContainer` runs, the child receives a sharedEvents bundle, and the
result differs from the container cloned with the original children. -/
theorem render_empty_events_rewrites :
    emptyEventsInstance.props.events = some [] ∧
    sampleLib.getComponentEvents emptyEventsInstance.props ["container", "groupComponent"] =
      none ∧
    render sampleLib emptyEventsInstance ≠
      (cloneElement emptyEventsInstance.props.container none []
        (some emptyEventsInstance.props.children)).map
        (fun r => (r, emptyEventsInstance.rewrite)) ∧
    (render sampleLib emptyEventsInstance).map (fun r => r.2.injected.length) = some 1 := by
  decide

/-- C6, amended. When the `container` prop is an element, the `events` prop is
undefined and the container and groupComponent contribute no events, `render` returns
the container cloned with the original children, `cloneElement(container, { children })`:
the root is the container with its own props and the children of the component, no child
receives injected props and the cache is as it was. -/
theorem render_without_events (lib : Lib) (inst : Instance) (t : CompType)
    (key : Option String) (attrs : Obj) (children : Option (List Element))
    (h1 : inst.props.events = none)
    (h2 : lib.getComponentEvents inst.props ["container", "groupComponent"] = none)
    (h3 : inst.props.container = some (.elem t key attrs children)) :
    render lib inst =
      (cloneElement inst.props.container none [] (some inst.props.children)).map
        (fun r => (r, inst.rewrite)) ∧
    render lib inst =
      some (.elem t key attrs inst.props.children,
        { cache := inst.sharedEventsCache, nextRef := inst.nextRef, injected := [] }) := by
  have hall : getAllEvents lib inst.props = none := by
    simp [getAllEvents, h1, h2]
  refine ⟨by simp [render, hall], ?_⟩
  simp [render, hall, h3, cloneElement, Rec.assign, Instance.rewrite]

/-- An events array, also an empty one, sends `render` through `getContainer`. -/
theorem render_with_events (lib : Lib) (inst : Instance) (es : List EventDescriptor)
    (h : inst.props.events = some es) :
    ∃ all, getAllEvents lib inst.props = some all ∧
      render lib inst = getContainer lib inst inst.props inst.baseProps (some all) := by
  cases hc : lib.getComponentEvents inst.props ["container", "groupComponent"] with
  | none => exact ⟨es, by simp [getAllEvents, h, hc], by simp [render, getAllEvents, h, hc]⟩
  | some ce =>
    exact ⟨ce ++ es, by simp [getAllEvents, h, hc], by simp [render, getAllEvents, h, hc]⟩

/-- C6, amended, at an instance without `events`: the root is the container with the
original child, and nothing is injected. -/
theorem render_without_events_witness :
    render sampleLib noEventsInstance =
      some (.elem victoryContainer none [] (some [barChild]),
        { cache := [], nextRef := 0, injected := [] }) :=
  (render_without_events sampleLib noEventsInstance victoryContainer none [] none
    rfl rfl rfl).2

/-! ## The tree rewrite -/

theorem eventFilter_iff (name : Option String) (e : EventDescriptor) :
    eventFilter name e = true ↔ e.target ≠ some "parent" ∧ e.childName.Matches name := by
  unfold eventFilter ChildName.Matches
  by_cases ht : e.target = some "parent"
  · simp [ht]
  · cases hc : e.childName with
    | absent => simp [ht]
    | one s => simp [ht]
    | many names =>
      cases name with
      | none => simp [ht]
      | some n => simp [ht]

theorem Fingerprint.isEqual_childEvents (a b : Fingerprint) (h : Fingerprint.isEqual a b = true) :
    a.childEvents = b.childEvents := by
  simp only [Fingerprint.isEqual, Bool.and_eq_true, decide_eq_true_eq] at h
  exact h.1.2

theorem getCachedSharedEvents_some (cache : Cache) (name : Option String) (fp : Fingerprint)
    (b : Bundle) (h : getCachedSharedEvents cache name fp = some (some b)) :
    ∃ prev, Rec.get? (propKey name) cache = some (b, prev) ∧ Fingerprint.isEqual fp prev = true := by
  unfold getCachedSharedEvents at h
  split at h
  · rename_i sharedEvents prev hg
    by_cases he : Fingerprint.isEqual fp prev = true
    · simp only [he, if_true, Option.some.injEq] at h
      subst h
      exact ⟨prev, hg, he⟩
    · simp [he] at h
  · split at h <;> simp at h

/-- The injection branch returns exactly when the cache lookup does not throw, and then
with the clone of the child and the store of the bundle. -/
theorem injectChild_some (cl : Closure) (names : List String) (idx : Nat) (t : CompType)
    (key : Option String) (attrs : Obj) (st : Rewrite) (r : Element × Rewrite)
    (h : injectChild cl names idx t key attrs st = some r) :
    (∃ cached, getCachedSharedEvents st.cache (deriveName attrs names idx)
      (cacheValuesFor cl (deriveName attrs names idx)) = some cached) ∧
    (injectedClone cl t key attrs (deriveName attrs names idx)
        (sharedEventsFor cl (deriveName attrs names idx) st),
      ({ cache := cacheSharedEvents st.cache (deriveName attrs names idx)
           (sharedEventsFor cl (deriveName attrs names idx) st)
           (cacheValuesFor cl (deriveName attrs names idx)),
         nextRef :=
           (if getCachedSharedEvents st.cache (deriveName attrs names idx)
               (cacheValuesFor cl (deriveName attrs names idx)) = some none
             then st.nextRef + 1 else st.nextRef),
         injected := st.injected ++
           [{ child := .elem t key attrs none, name := deriveName attrs names idx,
              cacheValues := cacheValuesFor cl (deriveName attrs names idx),
              sharedEvents := sharedEventsFor cl (deriveName attrs names idx) st }] } :
        Rewrite)) = r := by
  simp only [injectChild] at h
  cases hc : getCachedSharedEvents st.cache (deriveName attrs names idx)
      (cacheValuesFor cl (deriveName attrs names idx)) with
  | none => rw [hc] at h; simp at h
  | some cached =>
    rw [hc] at h
    refine ⟨⟨cached, rfl⟩, ?_⟩
    simp only [cloneElement, Option.map_some', Option.some.injEq, Option.elim_none] at h
    rw [← h]
    cases cached with
    | none => simp [sharedEventsFor, hc, injectedClone]
    | some b => simp [sharedEventsFor, hc, injectedClone]

/-- The injection branch returns when the cache lookup does. -/
theorem injectChild_isSome (cl : Closure) (names : List String) (idx : Nat) (t : CompType)
    (key : Option String) (attrs : Obj) (st : Rewrite)
    (h : (getCachedSharedEvents st.cache (deriveName attrs names idx)
      (cacheValuesFor cl (deriveName attrs names idx))).isSome = true) :
    ∃ r, injectChild cl names idx t key attrs st = some r := by
  cases hc : getCachedSharedEvents st.cache (deriveName attrs names idx)
      (cacheValuesFor cl (deriveName attrs names idx)) with
  | none => rw [hc] at h; simp at h
  | some cached => simp [injectChild, hc, cloneElement]

/-- The empty cache of a new instance is coherent. -/
theorem Cache.coherent_nil : Cache.Coherent [] := by
  intro k b fp h
  simp [Rec.get?] at h

theorem Cache.coherent_create (lib : Lib) (props : Props) :
    Cache.Coherent (Instance.create lib props).sharedEventsCache :=
  Cache.coherent_nil

theorem Cache.coherent_set (cache : Cache) (k : String) (b : Bundle) (fp : Fingerprint)
    (hc : Cache.Coherent cache) (hb : b.events = fp.childEvents) :
    Cache.Coherent (Rec.set k (b, fp) cache) := by
  intro k2 b2 fp2 h
  by_cases hk : k = k2
  · subst hk
    rw [Rec.get?_set_self] at h
    cases h
    exact hb
  · rw [Rec.get?_set_ne k k2 _ cache hk] at h
    exact hc k2 b2 fp2 h

theorem sharedEventsFor_events (cl : Closure) (name : Option String) (st : Rewrite)
    (hc : Cache.Coherent st.cache) :
    (sharedEventsFor cl name st).events = childEventsFor cl.events name := by
  unfold sharedEventsFor
  split
  · rename_i b hg
    obtain ⟨prev, hget, heq⟩ := getCachedSharedEvents_some _ _ _ _ hg
    have h1 := hc _ _ _ hget
    have h2 := Fingerprint.isEqual_childEvents _ _ heq
    rw [h1, ← h2]
    rfl
  · rfl

theorem injectChild_sound (cl : Closure) (names : List String) (idx : Nat) (t : CompType)
    (key : Option String) (attrs : Obj) (st : Rewrite) (r : Element × Rewrite)
    (hs : Rewrite.Sound cl st) (h : injectChild cl names idx t key attrs st = some r) :
    Rewrite.Sound cl r.2 := by
  obtain ⟨hcoh, hinj⟩ := hs
  have h := (injectChild_some cl names idx t key attrs st r h).2
  subst h
  have hb := sharedEventsFor_events cl (deriveName attrs names idx) st hcoh
  refine ⟨?_, ?_⟩
  · exact Cache.coherent_set _ _ _ _ hcoh hb
  · intro inj hmem
    simp only [List.mem_append, List.mem_singleton] at hmem
    rcases hmem with hmem | hmem
    · exact hinj inj hmem
    · subst hmem
      exact ⟨⟨names, idx, rfl⟩, hb⟩

mutual
theorem alterChild_preserves (cl : Closure) (P : Rewrite → Prop)
    (hstep : ∀ names idx t key attrs st r, P st →
      injectChild cl names idx t key attrs st = some r → P r.2) :
    ∀ (e : Element) (names : List String) (idx : Nat) (st : Rewrite) (r : Element × Rewrite),
      P st → alterChild cl names idx st e = some r → P r.2
  | .text _, names, idx, st, r, hP, h => by simp [alterChild] at h
  | .elem t key attrs (some kids), names, idx, st, r, hP, h => by
    simp only [alterChild] at h
    split at h
    · rename_i results st1 hl
      have := alterList_preserves cl P hstep kids _ _ _ _ hP hl
      simp [cloneElement] at h
      rw [← h]; exact this
    · simp at h
  | .elem t key attrs none, names, idx, st, r, hP, h => by
    simp only [alterChild] at h
    split at h
    · exact hstep _ _ _ _ _ _ _ hP h
    · simp at h; rw [← h]; exact hP
theorem alterList_preserves (cl : Closure) (P : Rewrite → Prop)
    (hstep : ∀ names idx t key attrs st r, P st →
      injectChild cl names idx t key attrs st = some r → P r.2) :
    ∀ (l : List Element) (names : List String) (idx : Nat) (st : Rewrite)
      (r : List Element × Rewrite),
      P st → alterList cl names idx st l = some r → P r.2
  | [], names, idx, st, r, hP, h => by
    simp [alterList] at h; rw [← h]; exact hP
  | child :: rest, names, idx, st, r, hP, h => by
    simp only [alterList] at h
    split at h
    · rename_i result st1 hc
      have h1 := alterChild_preserves cl P hstep child _ _ _ _ hP hc
      split at h
      · rename_i results st2 hl
        have h2 := alterList_preserves cl P hstep rest _ _ _ _ h1 hl
        simp at h; rw [← h]; exact h2
      · simp at h
    · simp at h
end

mutual
theorem alterChild_injected (cl : Closure) :
    ∀ (e : Element) (names : List String) (idx : Nat) (st : Rewrite) (r : Element × Rewrite),
      alterChild cl names idx st e = some r →
      r.2.injected.map (fun i => i.child) =
        st.injected.map (fun i => i.child) ++ participants e
  | .text _, names, idx, st, r, h => by simp [alterChild] at h
  | .elem t key attrs (some kids), names, idx, st, r, h => by
    simp only [alterChild] at h
    split at h
    · rename_i results st1 hl
      have := alterList_injected cl kids _ _ _ _ hl
      simp [cloneElement] at h
      rw [← h]
      simpa [participants] using this
    · simp at h
  | .elem t key attrs none, names, idx, st, r, h => by
    simp only [alterChild] at h
    split at h
    · rename_i ht
      have h := (injectChild_some cl names idx t key attrs st r h).2
      subst h
      simp [participants, ht]
    · rename_i ht
      simp at h; rw [← h]
      simp [participants, ht]
theorem alterList_injected (cl : Closure) :
    ∀ (l : List Element) (names : List String) (idx : Nat) (st : Rewrite)
      (r : List Element × Rewrite),
      alterList cl names idx st l = some r →
      r.2.injected.map (fun i => i.child) =
        st.injected.map (fun i => i.child) ++ participantsList l
  | [], names, idx, st, r, h => by
    simp [alterList] at h; rw [← h]; simp [participantsList]
  | child :: rest, names, idx, st, r, h => by
    simp only [alterList] at h
    split at h
    · rename_i result st1 hc
      have h1 := alterChild_injected cl child _ _ _ _ hc
      split at h
      · rename_i results st2 hl
        have h2 := alterList_injected cl rest _ _ _ _ hl
        simp at h; rw [← h]
        simp only [h2, h1, participantsList, List.append_assoc]
      · simp at h
    · simp at h
end

/-- A run of `getNewChildren` from a coherent cache hands a bundle to every participating
leaf, in traversal order, under the name derived for the leaf, and each bundle carries
the events of `props.events` that pass the filter for that name; the cache stays
coherent. -/
theorem getNewChildren_sound (lib : Lib) (inst : Instance) (props : Props)
    (baseProps : BaseProps) (out : List Element) (st : Rewrite)
    (hc : Cache.Coherent inst.sharedEventsCache)
    (hrun : getNewChildren lib inst props baseProps = some (out, st)) :
    Cache.Coherent st.cache ∧
    st.injected.map (fun i => i.child) = participantsList (toArray props.children) ∧
    ∀ inj ∈ st.injected,
      (∃ childNames index, inj.name = deriveName inj.child.attrs childNames index) ∧
      inj.sharedEvents.events = childEventsFor props.events inj.name := by
  simp only [getNewChildren, alterChildren] at hrun
  have hs := alterList_preserves _ (Rewrite.Sound _) (injectChild_sound _) _ _ _ _ _
    (show Rewrite.Sound _ inst.rewrite from ⟨hc, by simp [Instance.rewrite]⟩) hrun
  have hl := alterList_injected _ _ _ _ _ _ hrun
  exact ⟨hs.1, by simpa [Instance.rewrite] using hl, hs.2⟩

/-! ## Which events reach which child -/

/-- C3. For an `events` array and a run of `getNewChildren` (from a coherent cache, as
every cache of the component is), every participating leaf is handed one bundle, in
traversal order, and the bundle of a child with derived name `n` holds a sublist of the
array (the order of the input is kept) with: a descriptor whose target is not `"parent"`
belongs to it if and only if its `childName` is an array that contains `n`, or is not an
array and equals `n` or the literal `"all"`. In particular a descriptor with `childName`
`"all"` is given to every participating child, and one with an array `childName` exactly
to the children whose name is listed. -/
theorem childName_matching_rule (lib : Lib) (inst : Instance) (props : Props)
    (baseProps : BaseProps) (events : List EventDescriptor) (out : List Element)
    (st : Rewrite) (hev : props.events = some events)
    (hc : Cache.Coherent inst.sharedEventsCache)
    (hrun : getNewChildren lib inst props baseProps = some (out, st)) :
    st.injected.map (fun i => i.child) = participantsList (toArray props.children) ∧
    ∀ inj ∈ st.injected,
      (∃ childNames index, inj.name = deriveName inj.child.attrs childNames index) ∧
      ∃ l, inj.sharedEvents.events = some l ∧ l.Sublist events ∧
      (∀ e ∈ events, e.target ≠ some "parent" → (e ∈ l ↔ e.childName.Matches inj.name)) ∧
      (∀ e ∈ events, e.target ≠ some "parent" → e.childName = .one "all" → e ∈ l) ∧
      (∀ e ∈ events, e.target ≠ some "parent" → ∀ names, e.childName = .many names →
        (e ∈ l ↔ ∃ n, inj.name = some n ∧ n ∈ names)) := by
  obtain ⟨_, hl, hinj⟩ := getNewChildren_sound lib inst props baseProps out st hc hrun
  refine ⟨hl, ?_⟩
  intro inj hmem
  have hiff : ∀ e ∈ events, e.target ≠ some "parent" →
      (e ∈ events.filter (eventFilter inj.name) ↔ e.childName.Matches inj.name) := by
    intro e he ht
    rw [List.mem_filter, eventFilter_iff]
    exact ⟨fun h => h.2.2, fun h => ⟨he, ht, h⟩⟩
  refine ⟨(hinj inj hmem).1,
    events.filter (eventFilter inj.name), ?_, List.filter_sublist _, hiff, ?_, ?_⟩
  · rw [(hinj inj hmem).2, hev]; rfl
  · intro e he ht hall
    rw [hiff e he ht, hall]
    exact Or.inr rfl
  · intro e he ht names hn
    rw [hiff e he ht, hn]
    rfl

/-- C3 on two children, `"0"` and `"line"`, and three descriptors: the child `"0"`
receives the descriptor for `"all"`, the child `"line"` receives it and the one that
lists `"line"`, in the order of the input. -/
theorem childName_matching_rule_witness :
    (matchingRun.2.injected.map (fun i => i.child) =
        participantsList (toArray matchingProps.children) ∧
      ∀ inj ∈ matchingRun.2.injected,
        (∃ childNames index, inj.name = deriveName inj.child.attrs childNames index) ∧
        ∃ l, inj.sharedEvents.events = some l ∧
        l.Sublist
          [{ childName := .one "all", target := some "data" },
           { childName := .many ["line"], target := some "labels" },
           { childName := .one "all", target := some "parent" }] ∧
        (∀ e ∈ ([{ childName := .one "all", target := some "data" },
             { childName := .many ["line"], target := some "labels" },
             { childName := .one "all", target := some "parent" }] : List EventDescriptor),
          e.target ≠ some "parent" → (e ∈ l ↔ e.childName.Matches inj.name)) ∧
        (∀ e ∈ ([{ childName := .one "all", target := some "data" },
             { childName := .many ["line"], target := some "labels" },
             { childName := .one "all", target := some "parent" }] : List EventDescriptor),
          e.target ≠ some "parent" → e.childName = .one "all" → e ∈ l) ∧
        (∀ e ∈ ([{ childName := .one "all", target := some "data" },
             { childName := .many ["line"], target := some "labels" },
             { childName := .one "all", target := some "parent" }] : List EventDescriptor),
          e.target ≠ some "parent" → ∀ names, e.childName = .many names →
          (e ∈ l ↔ ∃ n, inj.name = some n ∧ n ∈ names))) ∧
    matchingRun.2.injected.map (fun i => (i.name, i.sharedEvents.events)) =
      [(some "0", some [{ childName := .one "all", target := some "data" }]),
       (some "line", some [{ childName := .one "all", target := some "data" },
          { childName := .many ["line"], target := some "labels" }])] :=
  ⟨childName_matching_rule sampleLib matchingInstance matchingProps matchingInstance.baseProps
      _ matchingRun.1 matchingRun.2 rfl Cache.coherent_nil (by decide),
   by decide⟩

/-- C4. In a run of `getNewChildren` (from a coherent cache) every participating leaf is
handed one bundle, and no bundle holds a descriptor whose target is `"parent"`, whatever
the name of the child and the `childName` of the descriptor. -/
theorem parent_events_never_reach_children (lib : Lib) (inst : Instance) (props : Props)
    (baseProps : BaseProps) (out : List Element) (st : Rewrite)
    (hc : Cache.Coherent inst.sharedEventsCache)
    (hrun : getNewChildren lib inst props baseProps = some (out, st)) :
    st.injected.map (fun i => i.child) = participantsList (toArray props.children) ∧
    ∀ inj ∈ st.injected, ∀ l, inj.sharedEvents.events = some l →
      ∀ e ∈ l, e.target ≠ some "parent" := by
  obtain ⟨_, hl, hinj⟩ := getNewChildren_sound lib inst props baseProps out st hc hrun
  refine ⟨hl, ?_⟩
  intro inj hmem l hl2 e he
  rw [(hinj inj hmem).2] at hl2
  cases hev : props.events with
  | none => simp [childEventsFor, hev] at hl2
  | some events =>
    simp only [childEventsFor, hev, Option.map_some', Option.some.injEq] at hl2
    subst hl2
    rw [List.mem_filter, eventFilter_iff] at he
    exact he.2.1

/-- C4 on the run with a descriptor `{ childName: "all", target: "parent" }`: it is in
the bundle of neither child. -/
theorem parent_events_never_reach_children_witness :
    (matchingRun.2.injected.map (fun i => i.child) =
        participantsList (toArray matchingProps.children) ∧
      ∀ inj ∈ matchingRun.2.injected, ∀ l, inj.sharedEvents.events = some l →
        ∀ e ∈ l, e.target ≠ some "parent") ∧
    matchingRun.2.injected.length = 2 :=
  ⟨parent_events_never_reach_children sampleLib matchingInstance matchingProps
      matchingInstance.baseProps matchingRun.1 matchingRun.2 Cache.coherent_nil (by decide),
   by decide⟩

/-! ## Events on the way through `render` -/

theorem getContainer_run (lib : Lib) (inst : Instance) (props : Props) (baseProps : BaseProps)
    (events : Option (List EventDescriptor)) (root : Element) (st1 : Rewrite)
    (h : getContainer lib inst props baseProps events = some (root, st1)) :
    ∃ children st, getNewChildren lib inst props baseProps = some (children, st) ∧
      st1.injected = st.injected ∧ st1.cache = st.cache := by
  unfold getContainer at h
  split at h
  · simp at h
  · rename_i children st hrun
    refine ⟨children, st, hrun, ?_⟩
    simp only at h
    split at h
    · simp at h
    · simp only [Option.map_eq_some', Prod.mk.injEq] at h
      obtain ⟨r, _, _, hst⟩ := h
      subst hst
      constructor <;> split <;> rfl

/-- C10, counterexample. The container contributes the descriptor
`{ childName: "all", target: "data" }`, which is in the list `getAllEvents` returns and
whose target is not `"parent"`; the participating child `"0"` is rendered with a bundle
whose `events` is `false`, so the descriptor is not in it. -/
theorem component_events_do_not_reach_children :
    getAllEvents contributingLib contributedInstance.props = some [allDataEvent] ∧
    allDataEvent.target ≠ some "parent" ∧
    allDataEvent.childName.Matches (some "0") ∧
    (render contributingLib contributedInstance).map
        (fun r => r.2.injected.map (fun i => (i.child, i.name, i.sharedEvents.events))) =
      some [(barChild, some "0", none)] := by
  refine ⟨by decide, by decide, Or.inr rfl, by decide⟩

/-- C10, amended. In `render` with an `events` prop (the caller's array) every
participating leaf is handed one bundle through `getContainer`, and every descriptor of
`props.events` whose target is not `"parent"` and whose `childName` matches the child is
in the `events` of that bundle; the bundle holds descriptors of `props.events` only: the
descriptors that the container and groupComponent contribute to `getAllEvents` are not
handed to the children. -/
theorem render_forwards_props_events (lib : Lib) (inst : Instance)
    (events : List EventDescriptor) (root : Element) (st : Rewrite)
    (hev : inst.props.events = some events)
    (hc : Cache.Coherent inst.sharedEventsCache)
    (hr : render lib inst = some (root, st)) :
    st.injected.map (fun i => i.child) = participantsList (toArray inst.props.children) ∧
    ∀ inj ∈ st.injected, ∃ l, inj.sharedEvents.events = some l ∧
      (∀ e ∈ events, e.target ≠ some "parent" → e.childName.Matches inj.name → e ∈ l) ∧
      (∀ e ∈ l, e ∈ events) := by
  obtain ⟨all, _, hrender⟩ := render_with_events lib inst events hev
  rw [hrender] at hr
  obtain ⟨children, st0, hrun, hinj, _⟩ := getContainer_run _ _ _ _ _ _ _ hr
  obtain ⟨_, hl, hsound⟩ := getNewChildren_sound lib inst inst.props inst.baseProps _ _ hc hrun
  rw [hinj]
  refine ⟨hl, ?_⟩
  intro inj hmem
  refine ⟨events.filter (eventFilter inj.name), ?_, ?_, ?_⟩
  · rw [(hsound inj hmem).2, hev]; rfl
  · intro e he ht hm
    rw [List.mem_filter, eventFilter_iff]
    exact ⟨he, ht, hm⟩
  · intro e he
    exact (List.mem_filter.mp he).1

/-- C10, amended, on the rendering of two children with three descriptors. -/
theorem render_forwards_props_events_witness :
    (matchingRender.2.injected.map (fun i => i.child) =
        participantsList (toArray matchingInstance.props.children) ∧
      ∀ inj ∈ matchingRender.2.injected, ∃ l, inj.sharedEvents.events = some l ∧
        (∀ e ∈ ([{ childName := .one "all", target := some "data" },
             { childName := .many ["line"], target := some "labels" },
             { childName := .one "all", target := some "parent" }] : List EventDescriptor),
          e.target ≠ some "parent" → e.childName.Matches inj.name → e ∈ l) ∧
        (∀ e ∈ l, e ∈ ([{ childName := .one "all", target := some "data" },
             { childName := .many ["line"], target := some "labels" },
             { childName := .one "all", target := some "parent" }] : List EventDescriptor))) ∧
    matchingRender.2.injected.map (fun i => i.name) = [some "0", some "line"] :=
  ⟨render_forwards_props_events sampleLib matchingInstance _ matchingRender.1 matchingRender.2
      rfl Cache.coherent_nil (by decide),
   by decide⟩

/-! ## The cache invariant along the lifecycle -/

theorem Instance.setStates_cache (inst : Instance) (calls : List SetStateCall) :
    (inst.setStates calls).1.sharedEventsCache = inst.sharedEventsCache := by
  have : ∀ (acc : Instance × List Effect),
      (calls.foldl (fun acc call => ((acc.1.setState call).1, acc.2 ++ (acc.1.setState call).2))
        acc).1.sharedEventsCache = acc.1.sharedEventsCache := by
    induction calls with
    | nil => intro acc; rfl
    | cons c cs ih => intro acc; simp only [List.foldl_cons]; rw [ih]; rfl
  exact this (inst, [])

/-- `componentDidMount` leaves the cache alone. -/
theorem componentDidMount_cache (lib : Lib) (inst : Instance) :
    (componentDidMount lib inst).1.sharedEventsCache = inst.sharedEventsCache := by
  simp [componentDidMount, Instance.setStates_cache]

/-- `shouldComponentUpdate` leaves the cache alone. -/
theorem shouldComponentUpdate_cache (lib : Lib) (inst : Instance) (nextProps : Props)
    (r : Instance × List Effect × Bool)
    (h : shouldComponentUpdate lib inst nextProps = some r) :
    r.1.sharedEventsCache = inst.sharedEventsCache := by
  simp only [shouldComponentUpdate] at h
  split at h
  · split at h
    · simp only [Option.some.injEq] at h
      subst h
      simp [Instance.setStates_cache]
    · simp at h
  · simp only [Option.some.injEq] at h
    subst h
    rfl

/-- `render` keeps the cache coherent. -/
theorem render_coherent (lib : Lib) (inst : Instance) (root : Element) (st : Rewrite)
    (hc : Cache.Coherent inst.sharedEventsCache) (h : render lib inst = some (root, st)) :
    Cache.Coherent (inst.commit st).sharedEventsCache := by
  cases he : getAllEvents lib inst.props with
  | some es =>
    simp only [render, he] at h
    obtain ⟨children, st0, hrun, _, hcache⟩ := getContainer_run _ _ _ _ _ _ _ h
    have := (getNewChildren_sound lib inst _ _ _ _ hc hrun).1
    simpa [Instance.commit, hcache] using this
  | none =>
    simp only [render, he, Option.map_eq_some', Prod.mk.injEq] at h
    obtain ⟨_, _, _, hst⟩ := h
    subst hst
    simpa [Instance.commit, Instance.rewrite] using hc

/-! ## The cache across two runs -/

theorem Rec.isEqual_same {α : Type} [DecidableEq α] (eq : α → α → Bool) (a : Rec α) :
    Rec.isEqual eq a a = true := by
  simp [Rec.isEqual]

theorem Fingerprint.isEqual_refl (a : Fingerprint) : Fingerprint.isEqual a a = true := by
  simp [Fingerprint.isEqual, BaseProps.isEqual, Rec.isEqual_same]

theorem Fingerprint.isEqual_name (a b : Fingerprint) (h : Fingerprint.isEqual a b = true) :
    a.name = b.name := by
  simp only [Fingerprint.isEqual, Bool.and_eq_true, decide_eq_true_eq] at h
  exact h.1.1.1

/-- A lookup depends on the entry under the key of the name only. -/
theorem getCachedSharedEvents_congr (c1 c2 : Cache) (name : Option String) (fp : Fingerprint)
    (h : Rec.get? (propKey name) c1 = Rec.get? (propKey name) c2) :
    getCachedSharedEvents c1 name fp = getCachedSharedEvents c2 name fp := by
  simp [getCachedSharedEvents, h]

theorem getCachedSharedEvents_entry (cache : Cache) (name : Option String) (fp prev : Fingerprint)
    (b : Bundle) (h : Rec.get? (propKey name) cache = some (b, prev)) :
    getCachedSharedEvents cache name fp =
      some (if Fingerprint.isEqual fp prev then some b else none) := by
  simp [getCachedSharedEvents, h]

theorem propKey_ne_of_noCollision (name m : Option String) (log : List Injection)
    (inj : Injection) (hm : inj.name = m) (hmem : inj ∈ log) (hc : NoCollision name log)
    (hne : m ≠ name) : propKey m ≠ propKey name := by
  intro hk
  apply hne
  rw [← hm]
  exact hc inj hmem (by rw [hm]; exact hk)

theorem injectChild_runInv (cl : Closure) (st0 : Rewrite) (name : Option String)
    (names : List String) (idx : Nat) (t : CompType) (key : Option String) (attrs : Obj)
    (st : Rewrite) (r : Element × Rewrite) (hs : RunInv cl st0 name st)
    (h : injectChild cl names idx t key attrs st = some r) : RunInv cl st0 name r.2 := by
  obtain ⟨⟨cached, hlook⟩, h⟩ := injectChild_some cl names idx t key attrs st r h
  subst h
  intro hnc
  simp only at hnc ⊢
  generalize hm : deriveName attrs names idx = m at hnc hlook ⊢
  have hnc0 : NoCollision name st.injected := fun inj hi => hnc inj (List.mem_append_left _ hi)
  obtain ⟨hmono, huntouched, htouched⟩ := hs hnc0
  have hstep : st.nextRef ≤
      (if getCachedSharedEvents st.cache m (cacheValuesFor cl m) = some none then st.nextRef + 1
        else st.nextRef) := by
    split <;> omega
  by_cases hmn : m = name
  · -- the child has the name under consideration
    subst hmn
    refine ⟨le_trans hmono hstep, ?_, ?_⟩
    · intro hall
      exact absurd rfl (hall _ (List.mem_append_right _ (List.mem_singleton.mpr rfl)))
    · intro _
      refine ⟨sharedEventsFor cl m st, ?_, ?_, ?_⟩
      · simp [cacheSharedEvents, Rec.get?_set_self]
      · by_cases hprev : ∃ inj ∈ st.injected, inj.name = m
        · obtain ⟨b, hget, hsame, _⟩ := htouched hprev
          have hhit : sharedEventsFor cl m st = b := by
            simp [sharedEventsFor, getCachedSharedEvents_entry _ _ _ _ _ hget,
              Fingerprint.isEqual_refl]
          intro inj hmem hname
          simp only [List.mem_append, List.mem_singleton] at hmem
          rcases hmem with hmem | hmem
          · rw [hhit]; exact hsame inj hmem hname
          · subst hmem; exact ⟨rfl, rfl⟩
        · intro inj hmem hname
          simp only [List.mem_append, List.mem_singleton] at hmem
          rcases hmem with hmem | hmem
          · exact absurd ⟨inj, hmem, hname⟩ hprev
          · subst hmem; exact ⟨rfl, rfl⟩
      · by_cases hprev : ∃ inj ∈ st.injected, inj.name = m
        · obtain ⟨b, hget, _, hres⟩ := htouched hprev
          have hhit : sharedEventsFor cl m st = b := by
            simp [sharedEventsFor, getCachedSharedEvents_entry _ _ _ _ _ hget,
              Fingerprint.isEqual_refl]
          rw [hhit]
          rcases hres with hres | ⟨h1, h2, h3, h4⟩
          · exact Or.inl hres
          · exact Or.inr ⟨h1, h2, lt_of_lt_of_le h3 hstep, h4⟩
        · have hsame := huntouched (fun inj hmem hname => hprev ⟨inj, hmem, hname⟩)
          have hcong := getCachedSharedEvents_congr _ _ m (cacheValuesFor cl m) hsame
          cases hc : getCachedSharedEvents st0.cache m (cacheValuesFor cl m) with
          | none =>
            rw [hcong, hc] at hlook
            cases hlook
          | some c0 =>
            cases c0 with
            | some b0 =>
              left
              simp [sharedEventsFor, hcong, hc]
            | none =>
              right
              refine ⟨hc, ?_, ?_, ?_⟩
              · simpa [sharedEventsFor, hcong, hc, newSharedEvents] using hmono
              · simp [sharedEventsFor, hcong, hc, newSharedEvents]
              · simp [sharedEventsFor, hcong, hc, newSharedEvents]
  · -- a child of another name: the entry is not touched
    have hkey : propKey m ≠ propKey name :=
      propKey_ne_of_noCollision name m _
        { child := .elem t key attrs none, name := m, cacheValues := cacheValuesFor cl m,
          sharedEvents := sharedEventsFor cl m st } rfl
        (List.mem_append_right _ (List.mem_singleton.mpr rfl)) hnc hmn
    have hget : Rec.get? (propKey name)
        (cacheSharedEvents st.cache m (sharedEventsFor cl m st) (cacheValuesFor cl m)) =
        Rec.get? (propKey name) st.cache := by
      simp [cacheSharedEvents, Rec.get?_set_ne _ _ _ _ hkey]
    refine ⟨le_trans hmono hstep, ?_, ?_⟩
    · intro hall
      rw [hget]
      exact huntouched (fun inj hmem => hall inj (List.mem_append_left _ hmem))
    · rintro ⟨inj, hmem, hname⟩
      simp only [List.mem_append, List.mem_singleton] at hmem
      have hold : ∃ inj ∈ st.injected, inj.name = name := by
        rcases hmem with hmem | hmem
        · exact ⟨inj, hmem, hname⟩
        · subst hmem; exact absurd hname hmn
      obtain ⟨b, hb, hsame, hres⟩ := htouched hold
      refine ⟨b, by rw [hget]; exact hb, ?_, ?_⟩
      · intro inj2 hmem2 hname2
        simp only [List.mem_append, List.mem_singleton] at hmem2
        rcases hmem2 with hmem2 | hmem2
        · exact hsame inj2 hmem2 hname2
        · subst hmem2; exact absurd hname2 hmn
      · rcases hres with hres | ⟨h1, h2, h3, h4⟩
        · exact Or.inl hres
        · exact Or.inr ⟨h1, h2, lt_of_lt_of_le h3 hstep, h4⟩

/-- After a run of `getNewChildren` the cache entry of a name that was handed out, and
whose key no other name shares, holds the one bundle every child of that name received,
with the fingerprint of the name. -/
theorem getNewChildren_runInv (lib : Lib) (inst : Instance) (props : Props)
    (baseProps : BaseProps) (out : List Element) (st : Rewrite) (name : Option String)
    (hrun : getNewChildren lib inst props baseProps = some (out, st)) :
    RunInv
      { lib := lib, events := props.events, eventKey := props.eventKey, baseProps := baseProps,
        state := inst.state } inst.rewrite name st := by
  simp only [getNewChildren, alterChildren] at hrun
  refine alterList_preserves _ (RunInv _ inst.rewrite name)
    (fun names idx t key attrs st r => injectChild_runInv _ _ _ names idx t key attrs st r)
    _ _ _ _ _ ?_ hrun
  intro _
  refine ⟨le_refl _, fun _ => rfl, ?_⟩
  rintro ⟨inj, hmem, _⟩
  simp [Instance.rewrite] at hmem

/-- C1, counterexample. First scenario: the children are named `"a"` and `"b"`; before
the second run the first child is renamed to `"b"`. Its fingerprint in the second run is
not deep-equal to its fingerprint in the first run (the names differ), yet the second
run hands it the bundle cached under `"b"` (reference 1, allocated in the first run,
which ended with the counter at 2), not a newly constructed one. Second scenario: the
children are a participating leaf named `"undefined"`, two plain elements and an unnamed
participating leaf, which at index 3 finds no name in `keys(baseProps)` and gets the name
`undefined`; both names index the cache with the key `"undefined"`. In two runs with the
same props, base props and state the fingerprints of the first child are equal, yet the
second run hands it a new bundle (reference 2, not 0). -/
theorem fingerprint_soundness_fails :
    ((runTwice sampleLib renameInstance renameProps renameInstance.baseProps []
        renamedProps renameInstance.baseProps).map
        (fun r =>
          (r.1.injected.map (fun i => (i.name, i.sharedEvents.ref)), r.1.nextRef,
           r.2.injected.map (fun i => (i.name, i.sharedEvents.ref)))) =
      some ([(some "a", 0), (some "b", 1)], 2, [(some "b", 1), (some "b", 1)]) ∧
     (runTwice sampleLib renameInstance renameProps renameInstance.baseProps []
        renamedProps renameInstance.baseProps).map
        (fun r => r.1.injected.head?.bind (fun x => r.2.injected.head?.map
          (fun y => Fingerprint.isEqual y.cacheValues x.cacheValues))) =
      some (some false)) ∧
    (Rec.keys collisionInstance.baseProps = ["3", "undefined", "parent"] ∧
     (runTwice sampleLib collisionInstance collisionProps collisionInstance.baseProps []
        collisionProps collisionInstance.baseProps).map
        (fun r =>
          (r.1.injected.map (fun i => (i.name, i.sharedEvents.ref)),
           r.2.injected.map (fun i => (i.name, i.sharedEvents.ref)))) =
      some ([(some "undefined", 0), (none, 1)], [(some "undefined", 2), (none, 3)]) ∧
     (runTwice sampleLib collisionInstance collisionProps collisionInstance.baseProps []
        collisionProps collisionInstance.baseProps).map
        (fun r => r.1.injected.head?.bind (fun x => r.2.injected.head?.map
          (fun y => Fingerprint.isEqual y.cacheValues x.cacheValues))) =
      some (some true)) := by
  refine ⟨⟨by decide, by decide⟩, by decide, by decide, by decide⟩

/-- C1, amended. Take two successive runs of `getNewChildren` (the second starts from the
cache the first one leaves; props, base props and state may differ), a participating
leaf `x` of the first run and a participating leaf `y` of the second, such that in
neither run another name shares the cache key of the child's name. If the fingerprint of
`y` deep-equals the fingerprint of `x`, the bundle injected in the second run is the very
bundle injected in the first run. If `y` has the name of `x` and the fingerprints are not
deep-equal, the second run injects a bundle allocated during the second run whose
`events` are the current filtered events of the child. In both cases the cache entry of
the name afterwards holds the injected bundle with the fingerprint of the second run. -/
theorem fingerprint_soundness (lib : Lib) (inst1 inst2 : Instance) (props1 props2 : Props)
    (baseProps1 baseProps2 : BaseProps) (out1 out2 : List Element) (st1 st2 : Rewrite)
    (x y : Injection)
    (hrun1 : getNewChildren lib inst1 props1 baseProps1 = some (out1, st1))
    (hcache : inst2.sharedEventsCache = st1.cache) (href : inst2.nextRef = st1.nextRef)
    (hrun2 : getNewChildren lib inst2 props2 baseProps2 = some (out2, st2))
    (hx : x ∈ st1.injected) (hy : y ∈ st2.injected)
    (hc1 : NoCollision x.name st1.injected) (hc2 : NoCollision y.name st2.injected) :
    (Fingerprint.isEqual y.cacheValues x.cacheValues = true →
      y.sharedEvents = x.sharedEvents) ∧
    (y.name = x.name → Fingerprint.isEqual y.cacheValues x.cacheValues = false →
      st1.nextRef ≤ y.sharedEvents.ref ∧ y.sharedEvents.ref < st2.nextRef ∧
      y.sharedEvents.events = childEventsFor props2.events y.name) ∧
    Rec.get? (propKey y.name) st2.cache = some (y.sharedEvents, y.cacheValues) ∧
    y.cacheValues =
      { name := y.name, baseProps := baseProps2,
        childEvents := childEventsFor props2.events y.name,
        stateStr := lib.stringify (Rec.get? (propKey y.name) inst2.state) } := by
  obtain ⟨_, _, h1⟩ := getNewChildren_runInv lib inst1 props1 baseProps1 out1 st1 x.name hrun1 hc1
  obtain ⟨b1, hget1, hsame1, _⟩ := h1 ⟨x, hx, rfl⟩
  obtain ⟨hxb, hxfp⟩ := hsame1 x hx rfl
  obtain ⟨_, _, h2⟩ := getNewChildren_runInv lib inst2 props2 baseProps2 out2 st2 y.name hrun2 hc2
  obtain ⟨b2, hget2, hsame2, hres⟩ := h2 ⟨y, hy, rfl⟩
  obtain ⟨hyb, hyfp⟩ := hsame2 y hy rfl
  have hlookup : y.name = x.name →
      getCachedSharedEvents st1.cache y.name y.cacheValues =
        some (if Fingerprint.isEqual y.cacheValues x.cacheValues then some b1 else none) := by
    intro hname
    rw [hxfp]
    apply getCachedSharedEvents_entry
    rw [hname]
    exact hget1
  simp only [Resolved, Instance.rewrite, hcache, href, ← hyfp] at hres
  refine ⟨?_, ?_, ?_, ?_⟩
  · intro heq
    have hname : y.name = x.name := by
      have := Fingerprint.isEqual_name _ _ heq
      rw [hyfp, hxfp] at this
      exact this
    rw [hlookup hname, heq] at hres
    rcases hres with hres | ⟨hres, _⟩
    · simp only [if_true, Option.some.injEq] at hres
      rw [hyb, hxb, hres]
    · simp at hres
  · intro hname hne
    rw [hlookup hname, hne] at hres
    rcases hres with hres | ⟨_, h3, h4, h5⟩
    · simp at hres
    · rw [hyb]
      exact ⟨h3, h4, h5⟩
  · rw [hyb, hyfp]
    exact hget2
  · rw [hyfp]
    rfl

/-- C1, amended, on two runs between which the state slice of the child `"line"` changes:
the child `"0"` keeps its bundle, the child `"line"` is handed a bundle allocated in the
second run, and the cache entry of `"line"` holds it with the new fingerprint. -/
theorem fingerprint_soundness_witness :
    (secondRun.2.injected.get ⟨0, by decide⟩).sharedEvents =
      (firstRun.2.injected.get ⟨0, by decide⟩).sharedEvents ∧
    (firstRun.2.nextRef ≤ (secondRun.2.injected.get ⟨1, by decide⟩).sharedEvents.ref ∧
      (secondRun.2.injected.get ⟨1, by decide⟩).sharedEvents.ref < secondRun.2.nextRef ∧
      (secondRun.2.injected.get ⟨1, by decide⟩).sharedEvents.events =
        childEventsFor matchingProps.events (some "line")) ∧
    Rec.get? "line" secondRun.2.cache =
      some ((secondRun.2.injected.get ⟨1, by decide⟩).sharedEvents,
        (secondRun.2.injected.get ⟨1, by decide⟩).cacheValues) :=
  ⟨(fingerprint_soundness sampleLib matchingInstance secondInstance matchingProps matchingProps
      matchingInstance.baseProps matchingInstance.baseProps firstRun.1 secondRun.1 firstRun.2
      secondRun.2 (firstRun.2.injected.get ⟨0, by decide⟩)
      (secondRun.2.injected.get ⟨0, by decide⟩) (by decide) rfl rfl (by decide) (by decide)
      (by decide) (by decide) (by decide)).1 (by decide),
   (fingerprint_soundness sampleLib matchingInstance secondInstance matchingProps matchingProps
      matchingInstance.baseProps matchingInstance.baseProps firstRun.1 secondRun.1 firstRun.2
      secondRun.2 (firstRun.2.injected.get ⟨1, by decide⟩)
      (secondRun.2.injected.get ⟨1, by decide⟩) (by decide) rfl rfl (by decide) (by decide)
      (by decide) (by decide) (by decide)).2.1 (by decide) (by decide),
   (fingerprint_soundness sampleLib matchingInstance secondInstance matchingProps matchingProps
      matchingInstance.baseProps matchingInstance.baseProps firstRun.1 secondRun.1 firstRun.2
      secondRun.2 (firstRun.2.injected.get ⟨1, by decide⟩)
      (secondRun.2.injected.get ⟨1, by decide⟩) (by decide) rfl rfl (by decide) (by decide)
      (by decide) (by decide) (by decide)).2.2.1⟩

/-! ## Children that do not participate -/

/-- The lookup of a name that is not an inherited member name returns. -/
theorem getCachedSharedEvents_isSome (cache : Cache) (name : Option String) (fp : Fingerprint)
    (h : objectMembers.contains (propKey name) = false) :
    (getCachedSharedEvents cache name fp).isSome = true := by
  have hn : propKey name ∉ objectMembers := by
    simpa using h
  unfold getCachedSharedEvents
  split
  · rfl
  · simp [hn]

mutual
theorem alterChild_elements (cl : Closure) :
    ∀ (e : Element) (names : List String) (idx : Nat) (st : Rewrite),
      Element.rewritable names idx e = true →
      ∃ r, alterChild cl names idx st e = some r ∧ PassedThrough e r.1
  | .text _, names, idx, st, h => by simp [Element.rewritable] at h
  | .elem t key attrs (some kids), names, idx, st, h => by
    simp only [Element.rewritable] at h
    obtain ⟨r, hr, hlen⟩ := alterList_elements cl kids
      (slice names idx (idx + kids.length)) 0 st h
    refine ⟨(.elem t key (Rec.assign attrs attrs) (some r.1), r.2), ?_, ?_⟩
    · simp [alterChild, hr, cloneElement]
    · exact ⟨r.1, hlen.1, rfl⟩
  | .elem t key attrs none, names, idx, st, h => by
    by_cases ht : t.hasGetBaseProps = true
    · simp only [Element.rewritable, ht, Bool.not_true, Bool.false_or,
        Bool.not_eq_true'] at h
      obtain ⟨r, hr⟩ := injectChild_isSome cl names idx t key attrs st
        (getCachedSharedEvents_isSome _ _ _ h)
      exact ⟨r, by simp [alterChild, ht, hr], by simp [PassedThrough, ht]⟩
    · refine ⟨(.elem t key attrs none, st), ?_, ?_⟩
      · simp [alterChild, ht]
      · simp [PassedThrough]
theorem alterList_elements (cl : Closure) :
    ∀ (l : List Element) (names : List String) (idx : Nat) (st : Rewrite),
      Element.rewritableList names idx l = true →
      ∃ r, alterList cl names idx st l = some r ∧ r.1.length = l.length ∧
        List.Forall₂ PassedThrough l r.1
  | [], names, idx, st, h => ⟨([], st), by simp [alterList], rfl, List.Forall₂.nil⟩
  | child :: rest, names, idx, st, h => by
    simp only [Element.rewritableList, Bool.and_eq_true] at h
    obtain ⟨r1, hr1, hp1⟩ := alterChild_elements cl child names idx st h.1
    obtain ⟨r2, hr2, hlen, hp2⟩ := alterList_elements cl rest names (idx + 1) r1.2 h.2
    refine ⟨(r1.1 :: r2.1, r2.2), ?_, ?_, ?_⟩
    · simp [alterList, hr1, hr2]
    · simp [hlen]
    · exact List.Forall₂.cons hp1 hp2
end

/-- On a child list of elements for which no inherited member name is derived,
`getNewChildren` returns a list of the same length in which every child without
`getBaseProps` and without nested children is the input child itself, and every child
with nested children is the child cloned with its own props and the rewritten children. -/
theorem getNewChildren_elements (lib : Lib) (inst : Instance) (props : Props)
    (baseProps : BaseProps)
    (h : Element.rewritableList (Rec.keys baseProps) 0 (toArray props.children) = true) :
    ∃ r, getNewChildren lib inst props baseProps = some r ∧
      r.1.length = (toArray props.children).length ∧
      List.Forall₂ PassedThrough (toArray props.children) r.1 := by
  simp only [getNewChildren, alterChildren]
  exact alterList_elements _ _ _ _ _ h


/-- C8, the code at the failing input. A child list with a text node (which has no
`props`) makes the rewrite throw at `child.props.children`: there is no output, neither
for the text node nor for the plain element beside it. Without the text node the plain
element is returned as it is. -/
theorem text_child_stops_the_rewrite :
    getNewChildren sampleLib textInstance textProps textInstance.baseProps = none ∧
    (getNewChildren sampleLib textInstance { textProps with children := some [plainG] }
        textInstance.baseProps).map (fun r => r.1) = some [plainG] := by
  decide

/-! ## Records: assignment -/

theorem Rec.get?_eq_none_iff {α : Type} (k : String) (o : Rec α) :
    Rec.get? k o = none ↔ k ∉ o.map Prod.fst := by
  induction o with
  | nil => simp [Rec.get?]
  | cons kv rest ih =>
    obtain ⟨k1, v1⟩ := kv
    by_cases h : k1 = k
    · simp [Rec.get?, h]
    · have h2 : ¬ k = k1 := fun e => h e.symm
      simp [Rec.get?, h, h2, ih]

theorem Rec.keys_set {α : Type} (k : String) (v : α) (o : Rec α) :
    ∀ k2, k2 ∈ (Rec.set k v o).map Prod.fst ↔ k2 = k ∨ k2 ∈ o.map Prod.fst := by
  induction o with
  | nil => intro k2; simp [Rec.set]
  | cons kv rest ih =>
    obtain ⟨k1, v1⟩ := kv
    intro k2
    by_cases h : k1 = k
    · subst h
      simp [Rec.set]
    · simp only [Rec.set, h, if_false, List.map_cons, List.mem_cons, ih k2]
      tauto

theorem Rec.distinct_set {α : Type} (k : String) (v : α) (o : Rec α) (hd : Rec.Distinct o) :
    Rec.Distinct (Rec.set k v o) := by
  induction o with
  | nil => simp [Rec.set, Rec.Distinct]
  | cons kv rest ih =>
    obtain ⟨k1, v1⟩ := kv
    simp only [Rec.Distinct, List.map_cons, List.nodup_cons] at hd
    by_cases h : k1 = k
    · subst h
      simpa [Rec.set, Rec.Distinct] using hd
    · simp only [Rec.set, h, if_false, Rec.Distinct, List.map_cons, List.nodup_cons]
      refine ⟨?_, ih hd.2⟩
      intro hmem
      rw [Rec.keys_set] at hmem
      rcases hmem with hmem | hmem
      · exact h hmem
      · exact hd.1 hmem

theorem Rec.distinct_assign {α : Type} (src target : Rec α) (hd : Rec.Distinct target) :
    Rec.Distinct (Rec.assign target src) := by
  induction src generalizing target with
  | nil => simpa [Rec.assign] using hd
  | cons kv rest ih =>
    simp only [Rec.assign, List.foldl_cons] at ih ⊢
    exact ih _ (Rec.distinct_set _ _ _ hd)

/-- Reading a key after `assign(target, source)`: the value of the source when the source
has the key, else the value of the target. -/
theorem Rec.get?_assign {α : Type} (k : String) (src target : Rec α) (hd : Rec.Distinct src) :
    Rec.get? k (Rec.assign target src) = (Rec.get? k src).elim (Rec.get? k target) some := by
  induction src generalizing target with
  | nil => simp [Rec.assign, Rec.get?]
  | cons kv rest ih =>
    obtain ⟨k1, v1⟩ := kv
    simp only [Rec.Distinct, List.map_cons, List.nodup_cons] at hd
    have ih2 := ih (Rec.set k1 v1 target) hd.2
    simp only [Rec.assign, List.foldl_cons] at ih2 ⊢
    rw [ih2]
    by_cases h : k1 = k
    · subst h
      have hnone : Rec.get? k1 rest = none := (Rec.get?_eq_none_iff k1 rest).mpr hd.1
      simp [hnone, Rec.get?, Rec.get?_set_self]
    · simp [Rec.get?, h, Rec.get?_set_ne k1 k v1 target h]

theorem Rec.get?_filter_key {α : Type} (p : String → Bool) (k : String) (o : Rec α)
    (hk : p k = true) : Rec.get? k (o.filter (fun kv => p kv.1)) = Rec.get? k o := by
  induction o with
  | nil => simp [Rec.get?]
  | cons kv rest ih =>
    obtain ⟨k1, v1⟩ := kv
    by_cases h : k1 = k
    · subst h
      simp [List.filter, hk, Rec.get?]
    · by_cases hp : p k1 = true
      · simp [List.filter, hp, Rec.get?, h, ih]
      · simp [List.filter, hp, Rec.get?, h, ih]

theorem Rec.distinct_filter {α : Type} (p : String × α → Bool) (o : Rec α)
    (hd : Rec.Distinct o) : Rec.Distinct (o.filter p) := by
  unfold Rec.Distinct at hd ⊢
  exact List.Nodup.sublist (List.Sublist.map _ (List.filter_sublist o)) hd

theorem Rec.get?_configProps (o : Obj) : Rec.get? "key" (configProps o) = none := by
  rw [Rec.get?_eq_none_iff]
  simp [configProps]

/-! ## The props of a rewritten leaf -/

theorem injectedRecord_distinct (cl : Closure) (name : Option String) (b : Bundle) :
    Rec.Distinct (injectedRecord cl name b) := by
  simp [Rec.Distinct, injectedRecord]

/-- Reading a key of the config record `assign({ key, sharedEvents, eventKey, name },
child.props)`: the child's own entry when there is one, else the injected one. -/
theorem injectedConfig_get? (cl : Closure) (name : Option String) (b : Bundle) (attrs : Obj)
    (hd : Rec.Distinct attrs) (k : String) :
    Rec.get? k (Rec.assign (injectedRecord cl name b) attrs) =
      (Rec.get? k attrs).elim (Rec.get? k (injectedRecord cl name b)) some :=
  Rec.get?_assign k attrs _ hd

/-- Reading a prop of the clone: the child's own entry when there is one, else the
injected one. -/
theorem injectedClone_get? (cl : Closure) (name : Option String) (b : Bundle) (attrs : Obj)
    (hd : Rec.Distinct attrs) (k : String) (hk : k ≠ "key") :
    Rec.get? k (Rec.assign attrs (configProps (Rec.assign (injectedRecord cl name b) attrs))) =
      (Rec.get? k attrs).elim (Rec.get? k (injectedRecord cl name b)) some := by
  have hdc : Rec.Distinct (configProps (Rec.assign (injectedRecord cl name b) attrs)) :=
    Rec.distinct_filter _ _ (Rec.distinct_assign _ _ (injectedRecord_distinct cl name b))
  rw [Rec.get?_assign k _ attrs hdc]
  have hf : Rec.get? k (configProps (Rec.assign (injectedRecord cl name b) attrs)) =
      Rec.get? k (Rec.assign (injectedRecord cl name b) attrs) :=
    Rec.get?_filter_key (fun key => decide (key ≠ "key")) k _ (by simpa using hk)
  rw [hf, injectedConfig_get? cl name b attrs hd k]
  cases Rec.get? k attrs <;> cases Rec.get? k (injectedRecord cl name b) <;> rfl

/-- C11, counterexample. The child has the key `"mine"` and the props `name`, `eventKey`
and `size`. The key of the clone that the rewrite produces is `events-line`, the injected
one: the child's own key is not kept. -/
theorem own_key_is_replaced :
    ownPropsChild.key? = some "mine" ∧
    (alterChild
        { lib := sampleLib, events := some [], eventKey := .num 7, baseProps := [],
          state := [] }
        ["0"] 0 { cache := [], nextRef := 5 } ownPropsChild).map (fun r => r.1.key?) =
      some (some "events-line") := by
  refine ⟨by decide, by decide⟩

/-- C11, amended. For a participating leaf whose props are a record without a repeated
key and without an entry `key` (React keeps the key of an element out of its props), and
for whose derived name the cache lookup returns, the rewrite produces the child cloned
with the record `{ key: "events-<name>", sharedEvents, eventKey, name }` overlaid with
the child's own props: every entry of the child's own props keeps the child's value in
the clone (also under the names `sharedEvents`, `eventKey` and `name`), each of these
three that the child's own props do not have carries the injected value (the bundle, the
`eventKey` of the component, the derived name), the clone has no other prop, and the key
of the clone is `events-<name>`, whatever key the child has. -/
theorem own_props_win_over_injected (cl : Closure) (childNames : List String) (index : Nat)
    (st : Rewrite) (t : CompType) (key : Option String) (attrs : Obj)
    (ht : t.hasGetBaseProps = true) (hd : Rec.Distinct attrs)
    (hkey : Rec.get? "key" attrs = none)
    (hc : (getCachedSharedEvents st.cache (deriveName attrs childNames index)
      (cacheValuesFor cl (deriveName attrs childNames index))).isSome = true) :
    ∃ cloneAttrs st1,
      alterChild cl childNames index st (.elem t key attrs none) =
        some (.elem t (some ("events-" ++ propKey (deriveName attrs childNames index)))
          cloneAttrs none, st1) ∧
      (∀ k v, Rec.get? k attrs = some v → Rec.get? k cloneAttrs = some v) ∧
      (Rec.get? "sharedEvents" attrs = none →
        Rec.get? "sharedEvents" cloneAttrs =
          some (.atom (.ref (sharedEventsFor cl (deriveName attrs childNames index) st).ref))) ∧
      (Rec.get? "eventKey" attrs = none →
        Rec.get? "eventKey" cloneAttrs = some (.atom cl.eventKey)) ∧
      (Rec.get? "name" attrs = none →
        Rec.get? "name" cloneAttrs = some (nameVal (deriveName attrs childNames index))) ∧
      (∀ k, Rec.get? k attrs = none → k ≠ "sharedEvents" → k ≠ "eventKey" → k ≠ "name" →
        Rec.get? k cloneAttrs = none) := by
  have hcfg := injectedConfig_get? cl (deriveName attrs childNames index)
    (sharedEventsFor cl (deriveName attrs childNames index) st) attrs hd
  have hprops := injectedClone_get? cl (deriveName attrs childNames index)
    (sharedEventsFor cl (deriveName attrs childNames index) st) attrs hd
  obtain ⟨r, hr⟩ := injectChild_isSome cl childNames index t key attrs st hc
  have h := (injectChild_some cl childNames index t key attrs st r hr).2
  have hk : configKey (Rec.assign (injectedRecord cl (deriveName attrs childNames index)
      (sharedEventsFor cl (deriveName attrs childNames index) st)) attrs) =
      some ("events-" ++ propKey (deriveName attrs childNames index)) := by
    have hg : Rec.get? "key" (Rec.assign (injectedRecord cl (deriveName attrs childNames index)
        (sharedEventsFor cl (deriveName attrs childNames index) st)) attrs) =
        some (.atom (.str ("events-" ++ propKey (deriveName attrs childNames index)))) := by
      rw [hcfg "key", hkey]
      simp [injectedRecord, Rec.get?]
    simp only [configKey, hg]
    simp [Val.isUndef, Val.toKey]
  refine ⟨Rec.assign attrs (configProps (Rec.assign (injectedRecord cl
      (deriveName attrs childNames index)
      (sharedEventsFor cl (deriveName attrs childNames index) st)) attrs)), r.2,
    ?_, ?_, ?_, ?_, ?_, ?_⟩
  · simp only [alterChild, ht, if_true, hr]
    rw [← h]
    simp only [injectedClone, hk, Option.elim_some]
  · intro k v hv
    have hne : k ≠ "key" := by
      intro he
      rw [he, hkey] at hv
      cases hv
    rw [hprops k hne, hv]
    rfl
  · intro h
    rw [hprops _ (by decide), h]
    simp [injectedRecord, Rec.get?]
  · intro h
    rw [hprops _ (by decide), h]
    simp [injectedRecord, Rec.get?]
  · intro h
    rw [hprops _ (by decide), h]
    simp [injectedRecord, Rec.get?]
  · intro k hnone h1 h2 h3
    by_cases hkk : k = "key"
    · subst hkk
      have hdc : Rec.Distinct (configProps (Rec.assign (injectedRecord cl
          (deriveName attrs childNames index)
          (sharedEventsFor cl (deriveName attrs childNames index) st)) attrs)) :=
        Rec.distinct_filter _ _ (Rec.distinct_assign _ _ (injectedRecord_distinct _ _ _))
      rw [Rec.get?_assign "key" _ attrs hdc, Rec.get?_configProps, hkey]
      rfl
    · rw [hprops k hkk, hnone]
      have e1 : ¬ "key" = k := fun e => hkk e.symm
      have e2 : ¬ "sharedEvents" = k := fun e => h1 e.symm
      have e3 : ¬ "eventKey" = k := fun e => h2 e.symm
      have e4 : ¬ "name" = k := fun e => h3 e.symm
      simp [injectedRecord, Rec.get?, e1, e2, e3, e4]

/-- C11, amended, on a child with the key `"mine"` and the props `name`, `eventKey` and
`size`: the three own props are kept, `sharedEvents` is injected, and the key of the
clone is `events-line`. -/
theorem own_props_win_over_injected_witness :
    (alterChild
        { lib := sampleLib, events := some [], eventKey := .num 7, baseProps := [],
          state := [] }
        ["0"] 0 { cache := [], nextRef := 5 } ownPropsChild).map (fun r => r.1) =
      some (.elem victoryBar (some "events-line")
        [("name", .atom (.str "line")), ("eventKey", .atom (.str "x")),
         ("size", .atom (.num 3)), ("sharedEvents", .atom (.ref 5))] none) ∧
    ∃ cloneAttrs st1,
      alterChild
        { lib := sampleLib, events := some [], eventKey := .num 7, baseProps := [],
          state := [] }
        ["0"] 0 { cache := [], nextRef := 5 } ownPropsChild =
        some (.elem victoryBar (some "events-line") cloneAttrs none, st1) ∧
      Rec.get? "eventKey" cloneAttrs = some (.atom (.str "x")) ∧
      Rec.get? "sharedEvents" cloneAttrs = some (.atom (.ref 5)) := by
  refine ⟨by decide, ?_⟩
  obtain ⟨cloneAttrs, st1, h1, h2, h3, _, _, _⟩ :=
    own_props_win_over_injected
      { lib := sampleLib, events := some [], eventKey := .num 7, baseProps := [], state := [] }
      ["0"] 0 { cache := [], nextRef := 5 } victoryBar (some "mine")
      [("name", .atom (.str "line")), ("eventKey", .atom (.str "x")), ("size", .atom (.num 3))]
      rfl (by decide) (by decide) (by decide)
  exact ⟨cloneAttrs, st1, h1, h2 "eventKey" _ (by decide), h3 (by decide)⟩

/-! ## Layering of the parent event handlers -/

theorem containerEvents_eq (partialEvents : Rec Atom) (containerProps : PropRec) :
    containerEvents partialEvents containerProps =
      Rec.defaults Atom.isUndef (Rec.defaults Atom.isUndef [] partialEvents)
        (declaredEvents containerProps) := by
  simp [containerEvents]

/-- C12, counterexample. The resolved parent handlers are `onClick` (function 1) and
`onFocus`; the container declares `onClick` (function 2) and `onBlur` in its own `events`
prop. The final record carries function 1 for `onClick`, the resolved parent handler,
not the handler the container declared; so does the `events` prop of the root that
`getContainer` returns. -/
theorem declared_handler_does_not_win :
    Rec.get? "onClick"
        (containerEvents [("onClick", .fn 1), ("onFocus", .fn 4)]
          { attrs := [("events", .record [("onClick", .fn 2), ("onBlur", .fn 3)])] }) ≠
      some (.fn 2) ∧
    ((getContainer handlerLib handlerInstance handlerProps handlerInstance.baseProps
        handlerProps.events).bind (fun r => r.1.props)).map
        (fun p => Rec.get? "events" p.attrs) =
      some (some (.record [("onClick", .fn 1), ("onFocus", .fn 4), ("onBlur", .fn 3)])) := by
  refine ⟨by decide, by decide⟩

/-- C12, amended. In the `containerEvents` of `getContainer` a handler name that the
resolved parent handlers define carries the resolved parent handler, also when the
container declares a handler of that name in its own `events` prop (the container's
events lie under the resolved parent handlers); a name that only the container's `events`
define carries the container's handler. -/
theorem containerEvents_layering (partialEvents : Rec Atom) (containerProps : PropRec)
    (k : String) (v : Atom) (hv : v.isUndef = false) :
    (Rec.get? k partialEvents = some v →
      Rec.get? k (containerEvents partialEvents containerProps) = some v) ∧
    ((∀ w, (k, w) ∈ partialEvents → w.isUndef = true) →
      Rec.get? k (declaredEvents containerProps) = some v →
      Rec.get? k (containerEvents partialEvents containerProps) = some v) := by
  rw [containerEvents_eq]
  have h0 : ∀ w, Rec.get? k ([] : Rec Atom) = some w → Atom.isUndef w = true := by
    intro w hw; simp [Rec.get?] at hw
  refine ⟨?_, ?_⟩
  · intro h1
    apply Rec.defaults_keep _ _ _ _ _ _ hv
    exact Rec.defaults_fill _ _ _ _ _ h0 h1 hv
  · intro h1 h2
    exact Rec.defaults_fill _ _ _ _ _ (Rec.defaults_skip _ _ _ _ h0 h1) h2 hv

/-- C12, amended, on the handlers of the counterexample: `onClick` is the resolved parent
handler, `onFocus` (resolved only) and `onBlur` (declared only) carry their one handler. -/
theorem containerEvents_layering_witness :
    Rec.get? "onClick"
        (containerEvents [("onClick", .fn 1), ("onFocus", .fn 4)]
          { attrs := [("events", .record [("onClick", .fn 2), ("onBlur", .fn 3)])] }) =
      some (.fn 1) ∧
    Rec.get? "onFocus"
        (containerEvents [("onClick", .fn 1), ("onFocus", .fn 4)]
          { attrs := [("events", .record [("onClick", .fn 2), ("onBlur", .fn 3)])] }) =
      some (.fn 4) ∧
    Rec.get? "onBlur"
        (containerEvents [("onClick", .fn 1), ("onFocus", .fn 4)]
          { attrs := [("events", .record [("onClick", .fn 2), ("onBlur", .fn 3)])] }) =
      some (.fn 3) :=
  ⟨(containerEvents_layering _ _ "onClick" (.fn 1) rfl).1 (by decide),
   (containerEvents_layering _ _ "onFocus" (.fn 4) rfl).1 (by decide),
   (containerEvents_layering _ _ "onBlur" (.fn 3) rfl).2
     (by intro w hw; simp at hw) (by decide)⟩

/-! ## The root that `getContainer` returns -/

/-- The result of `getContainer`, case by case: the chosen container is `props.container`
or else `props.groupComponent`; with the role `"container"` it is cloned with the merged
parent props and the `events` prop, otherwise with the handlers and the rewritten
children. -/
theorem getContainer_root (lib : Lib) (inst : Instance) (props : Props) (baseProps : BaseProps)
    (events : Option (List EventDescriptor)) (root : Element) (st1 : Rewrite)
    (h : getContainer lib inst props baseProps events = some (root, st1)) :
    ∃ children st t key attrs kids parentEvents,
      getNewChildren lib inst props baseProps = some (children, st) ∧
      (props.container = some (.elem t key attrs kids) ∨
        (props.container = none ∧ props.groupComponent = some (.elem t key attrs kids))) ∧
      (t.role = some "container" →
        root = .elem t key
          (Rec.assign attrs
            (Rec.assign
              (Rec.assign []
                (parentProps (lib.getEventState inst.state "parent" "parent" none)
                  { attrs := attrs, children := kids } (Rec.get? "parent" baseProps)
                  children).attrs)
              [("events", Val.record
                (containerEvents
                  (lib.getPartialEvents parentEvents "parent"
                    (parentProps (lib.getEventState inst.state "parent" "parent" none)
                      { attrs := attrs, children := kids } (Rec.get? "parent" baseProps)
                      children))
                  { attrs := attrs, children := kids }))]))
          (parentProps (lib.getEventState inst.state "parent" "parent" none)
            { attrs := attrs, children := kids } (Rec.get? "parent" baseProps)
            children).children) ∧
      (t.role ≠ some "container" →
        root = .elem t key
          (Rec.assign attrs
            ((containerEvents
              (lib.getPartialEvents parentEvents "parent"
                (parentProps (lib.getEventState inst.state "parent" "parent" none)
                  { attrs := attrs, children := kids } (Rec.get? "parent" baseProps)
                  children))
              { attrs := attrs, children := kids }).map (fun kv => (kv.1, Val.atom kv.2))))
          (some children)) := by
  unfold getContainer at h
  split at h
  · simp at h
  · rename_i children st hrun
    simp only at h
    split at h
    · simp at h
    · rename_i c hc
      cases c with
      | text s => simp [cloneElement] at h
      | elem t key attrs kids =>
        have hchosen : props.container = some (.elem t key attrs kids) ∨
            (props.container = none ∧ props.groupComponent = some (.elem t key attrs kids)) := by
          cases hpc : props.container with
          | none => simp only [hpc] at hc; exact Or.inr ⟨rfl, hc⟩
          | some c2 => simp only [hpc, Option.some.injEq] at hc; exact Or.inl (by rw [hc])
        refine ⟨children, st, t, key, attrs, kids,
          (parentSharedEvents events baseProps st.nextRef).bind
            (fun b => lib.getEvents inst.state b "parent"),
          hrun, hchosen, ?_, ?_⟩
        · intro hrole
          simp only [Element.type?, Option.some_bind, hrole, if_true, Element.props,
            Option.getD_some, cloneElement, Option.map_some', Option.some.injEq,
            Prod.mk.injEq, Option.elim_none, Option.elim_some, id] at h
          exact h.1.symm
        · intro hrole
          simp only [Element.type?, Option.some_bind, hrole, if_false, Element.props,
            Option.getD_some, cloneElement, Option.map_some', Option.some.injEq,
            Prod.mk.injEq, Option.elim_none, Option.elim_some, id] at h
          exact h.1.symm

theorem parentProps_children (eventState : Option PropRec) (containerProps : PropRec)
    (baseParent : Option PropRec) (children : List Element) :
    (parentProps eventState containerProps baseParent children).children =
      match (eventState.getD {}).children, containerProps.children,
        (baseParent.getD {}).children with
      | some cs, _, _ => some cs
      | none, some cs, _ => some cs
      | none, none, some cs => some cs
      | none, none, none => some children := by
  simp only [parentProps, List.foldl, PropRec.defaults]
  cases (eventState.getD {}).children <;> cases containerProps.children <;>
    cases (baseParent.getD {}).children <;> rfl

/-- C13, counterexample. The container has the role `"container"` and a child of its
own. The root that `getContainer` returns has that child as its children, not the
sequence `getNewChildren` returns: `defaults` keeps the `children` entry of the
container's props and the rewritten children come last. -/
theorem container_children_shadow_rewritten :
    (getContainer sampleLib ownChildrenInstance ownChildrenProps ownChildrenInstance.baseProps
        ownChildrenProps.events).map (fun r => r.1.kids) = some (some [plainG]) ∧
    (getNewChildren sampleLib ownChildrenInstance ownChildrenProps
        ownChildrenInstance.baseProps).map (fun r => r.1) ≠ some [plainG] := by
  refine ⟨by decide, by decide⟩

/-- C13, amended. The root that `getContainer` returns has as its children exactly the
sequence `getNewChildren(props, baseProps)` returns when the container does not have the
role `"container"` (whatever `children` entries exist), and when it has the role
`"container"` and neither the parent event-state patch nor the container's own props nor
the parent entry of the base-props map define a `children` entry. A container with the
role `"container"` and children of its own keeps these (unless the patch defines
`children`). -/
theorem root_children_are_rewritten (lib : Lib) (inst : Instance) (props : Props)
    (baseProps : BaseProps) (events : Option (List EventDescriptor)) (root : Element)
    (st1 : Rewrite) (h : getContainer lib inst props baseProps events = some (root, st1)) :
    ∃ children st t key attrs kids,
      getNewChildren lib inst props baseProps = some (children, st) ∧
      (props.container = some (.elem t key attrs kids) ∨
        (props.container = none ∧ props.groupComponent = some (.elem t key attrs kids))) ∧
      (t.role ≠ some "container" → root.kids = some children) ∧
      (t.role = some "container" →
        ((lib.getEventState inst.state "parent" "parent" none).getD {}).children = none →
        kids = none → ((Rec.get? "parent" baseProps).getD {}).children = none →
        root.kids = some children) ∧
      (t.role = some "container" →
        ((lib.getEventState inst.state "parent" "parent" none).getD {}).children = none →
        ∀ cs, kids = some cs → root.kids = some cs) := by
  obtain ⟨children, st, t, key, attrs, kids, parentEvents, hrun, hchosen, hc, hn⟩ :=
    getContainer_root lib inst props baseProps events root st1 h
  refine ⟨children, st, t, key, attrs, kids, hrun, hchosen, ?_, ?_, ?_⟩
  · intro hrole
    rw [hn hrole]
    rfl
  · intro hrole h1 h2 h3
    rw [hc hrole]
    simp only [Element.kids, parentProps_children, h1, h2, h3]
  · intro hrole h1 cs h2
    rw [hc hrole]
    simp only [Element.kids, parentProps_children, h1, h2]

/-- C13, amended, on a `<g>` container that has a child of its own: the root carries the
rewritten children. -/
theorem root_children_are_rewritten_witness :
    (∃ children st t key attrs kids,
      getNewChildren sampleLib groupChildrenInstance groupChildrenProps
        groupChildrenInstance.baseProps = some (children, st) ∧
      (groupChildrenProps.container = some (.elem t key attrs kids) ∨
        (groupChildrenProps.container = none ∧
          groupChildrenProps.groupComponent = some (.elem t key attrs kids))) ∧
      (t.role ≠ some "container" → groupChildrenRoot.1.kids = some children) ∧
      (t.role = some "container" →
        ((sampleLib.getEventState groupChildrenInstance.state "parent" "parent" none).getD
          {}).children = none →
        kids = none →
        ((Rec.get? "parent" groupChildrenInstance.baseProps).getD {}).children = none →
        groupChildrenRoot.1.kids = some children) ∧
      (t.role = some "container" →
        ((sampleLib.getEventState groupChildrenInstance.state "parent" "parent" none).getD
          {}).children = none →
        ∀ cs, kids = some cs → groupChildrenRoot.1.kids = some cs)) ∧
    some groupChildrenRoot.1.kids =
      (getNewChildren sampleLib groupChildrenInstance groupChildrenProps
        groupChildrenInstance.baseProps).map (fun r => some r.1) :=
  ⟨root_children_are_rewritten sampleLib groupChildrenInstance groupChildrenProps
      groupChildrenInstance.baseProps groupChildrenProps.events groupChildrenRoot.1
      groupChildrenRoot.2 (by decide),
   by decide⟩

/-! ## Dispatch on the role of the container -/

theorem Rec.distinct_defaults {α : Type} (isUndef : α → Bool) (src dest : Rec α)
    (hd : Rec.Distinct dest) : Rec.Distinct (Rec.defaults isUndef dest src) := by
  induction src generalizing dest with
  | nil => simpa [Rec.defaults] using hd
  | cons kv rest ih =>
    simp only [Rec.defaults, List.foldl_cons] at ih ⊢
    apply ih
    split
    · exact Rec.distinct_set _ _ _ hd
    · split
      · exact Rec.distinct_set _ _ _ hd
      · exact hd

theorem containerEvents_distinct (partialEvents : Rec Atom) (containerProps : PropRec) :
    Rec.Distinct (containerEvents partialEvents containerProps) := by
  rw [containerEvents_eq]
  exact Rec.distinct_defaults _ _ _
    (Rec.distinct_defaults _ _ _ (by simp [Rec.Distinct]))

theorem Rec.get?_map_atom (k : String) (o : Rec Atom) :
    Rec.get? k (o.map (fun kv => (kv.1, Val.atom kv.2))) = (Rec.get? k o).map Val.atom := by
  induction o with
  | nil => simp [Rec.get?]
  | cons kv rest ih =>
    obtain ⟨k1, v1⟩ := kv
    by_cases h : k1 = k
    · simp [Rec.get?, h]
    · simp [Rec.get?, h, ih]

theorem Rec.distinct_map_atom (o : Rec Atom) (hd : Rec.Distinct o) :
    Rec.Distinct (o.map (fun kv => (kv.1, Val.atom kv.2))) := by
  unfold Rec.Distinct at hd ⊢
  simpa [List.map_map, Function.comp] using hd

/-- C17. `getContainer` chooses `props.container`, or `props.groupComponent` when no
container is given. When its type has the static role `"container"` the result is the
container cloned with the merged parent props and one `events` prop that holds the
computed container events: the `events` prop of the root is that record, and every other
prop of the root is read from the merged parent props (else from the container), not from
the handlers. For every other role the result is the container cloned with the computed
handlers as its direct props and the rewritten children as its content: a handler name
carries its handler, every other prop is the container's own, and the merged parent props
are not applied. -/
theorem container_role_dispatch (lib : Lib) (inst : Instance) (props : Props)
    (baseProps : BaseProps) (events : Option (List EventDescriptor)) (root : Element)
    (st1 : Rewrite) (h : getContainer lib inst props baseProps events = some (root, st1)) :
    ∃ children st t key attrs kids merged handlers,
      getNewChildren lib inst props baseProps = some (children, st) ∧
      (props.container = some (.elem t key attrs kids) ∨
        (props.container = none ∧ props.groupComponent = some (.elem t key attrs kids))) ∧
      merged = parentProps (lib.getEventState inst.state "parent" "parent" none)
        { attrs := attrs, children := kids } (Rec.get? "parent" baseProps) children ∧
      (∃ parentEvents, handlers =
        containerEvents (lib.getPartialEvents parentEvents "parent" merged)
          { attrs := attrs, children := kids }) ∧
      (t.role = some "container" →
        cloneElement (some (.elem t key attrs kids)) none
          (Rec.assign (Rec.assign [] merged.attrs) [("events", Val.record handlers)])
          (some merged.children) = some root ∧
        Rec.get? "events" root.attrs = some (Val.record handlers) ∧
        ∀ k, k ≠ "events" →
          Rec.get? k root.attrs =
            (Rec.get? k (Rec.assign [] merged.attrs)).elim (Rec.get? k attrs) some) ∧
      (t.role ≠ some "container" →
        cloneElement (some (.elem t key attrs kids)) none
          (handlers.map (fun kv => (kv.1, Val.atom kv.2))) (some (some children)) =
          some root ∧
        root.kids = some children ∧
        (∀ k f, Rec.get? k handlers = some f → Rec.get? k root.attrs = some (Val.atom f)) ∧
        ∀ k, Rec.get? k handlers = none → Rec.get? k root.attrs = Rec.get? k attrs) := by
  obtain ⟨children, st, t, key, attrs, kids, parentEvents, hrun, hchosen, hc, hn⟩ :=
    getContainer_root lib inst props baseProps events root st1 h
  refine ⟨children, st, t, key, attrs, kids, _, _, hrun, hchosen, rfl, ⟨parentEvents, rfl⟩,
    ?_, ?_⟩
  · intro hrole
    have hroot := hc hrole
    have hdist : Rec.Distinct
        (Rec.assign (Rec.assign []
          (parentProps (lib.getEventState inst.state "parent" "parent" none)
            { attrs := attrs, children := kids } (Rec.get? "parent" baseProps)
            children).attrs)
          [("events", Val.record
            (containerEvents
              (lib.getPartialEvents parentEvents "parent"
                (parentProps (lib.getEventState inst.state "parent" "parent" none)
                  { attrs := attrs, children := kids } (Rec.get? "parent" baseProps)
                  children))
              { attrs := attrs, children := kids }))]) :=
      Rec.distinct_assign _ _ (Rec.distinct_assign _ _ (by simp [Rec.Distinct]))
    refine ⟨?_, ?_, ?_⟩
    · rw [hroot]
      simp [cloneElement]
    · rw [hroot]
      simp only [Element.attrs]
      rw [Rec.get?_assign _ _ _ hdist]
      simp [Rec.assign, Rec.get?_set_self]
    · intro k hk
      rw [hroot]
      simp only [Element.attrs]
      rw [Rec.get?_assign _ _ _ hdist]
      have : Rec.get? k (Rec.assign (Rec.assign []
          (parentProps (lib.getEventState inst.state "parent" "parent" none)
            { attrs := attrs, children := kids } (Rec.get? "parent" baseProps)
            children).attrs)
          [("events", Val.record
            (containerEvents
              (lib.getPartialEvents parentEvents "parent"
                (parentProps (lib.getEventState inst.state "parent" "parent" none)
                  { attrs := attrs, children := kids } (Rec.get? "parent" baseProps)
                  children))
              { attrs := attrs, children := kids }))]) =
          Rec.get? k (Rec.assign []
            (parentProps (lib.getEventState inst.state "parent" "parent" none)
              { attrs := attrs, children := kids } (Rec.get? "parent" baseProps)
              children).attrs) := by
        simp only [Rec.assign, List.foldl_cons, List.foldl_nil]
        exact Rec.get?_set_ne _ _ _ _ (fun e => hk e.symm)
      rw [this]
  · intro hrole
    have hroot := hn hrole
    have hdist := Rec.distinct_map_atom _
      (containerEvents_distinct
        (lib.getPartialEvents parentEvents "parent"
          (parentProps (lib.getEventState inst.state "parent" "parent" none)
            { attrs := attrs, children := kids } (Rec.get? "parent" baseProps) children))
        { attrs := attrs, children := kids })
    refine ⟨?_, ?_, ?_, ?_⟩
    · rw [hroot]
      simp [cloneElement]
    · rw [hroot]
      rfl
    · intro k f hk
      rw [hroot]
      simp only [Element.attrs]
      rw [Rec.get?_assign _ _ _ hdist, Rec.get?_map_atom, hk]
      rfl
    · intro k hk
      rw [hroot]
      simp only [Element.attrs]
      rw [Rec.get?_assign _ _ _ hdist, Rec.get?_map_atom, hk]
      rfl

/-- C17 on a container with the role `"container"`: the root has the `events` prop with
the computed handlers and no handler as a direct prop; on a `<g>` container the root has
the rewritten children. -/
theorem container_role_dispatch_witness :
    (∃ children st t key attrs kids merged handlers,
      getNewChildren handlerLib handlerInstance handlerProps handlerInstance.baseProps =
        some (children, st) ∧
      (handlerProps.container = some (.elem t key attrs kids) ∨
        (handlerProps.container = none ∧
          handlerProps.groupComponent = some (.elem t key attrs kids))) ∧
      merged = parentProps (handlerLib.getEventState handlerInstance.state "parent" "parent" none)
        { attrs := attrs, children := kids } (Rec.get? "parent" handlerInstance.baseProps)
        children ∧
      (∃ parentEvents, handlers =
        containerEvents (handlerLib.getPartialEvents parentEvents "parent" merged)
          { attrs := attrs, children := kids }) ∧
      (t.role = some "container" →
        cloneElement (some (.elem t key attrs kids)) none
          (Rec.assign (Rec.assign [] merged.attrs) [("events", Val.record handlers)])
          (some merged.children) = some handlerRoot.1 ∧
        Rec.get? "events" handlerRoot.1.attrs = some (Val.record handlers) ∧
        ∀ k, k ≠ "events" →
          Rec.get? k handlerRoot.1.attrs =
            (Rec.get? k (Rec.assign [] merged.attrs)).elim (Rec.get? k attrs) some) ∧
      (t.role ≠ some "container" →
        cloneElement (some (.elem t key attrs kids)) none
          (handlers.map (fun kv => (kv.1, Val.atom kv.2))) (some (some children)) =
          some handlerRoot.1 ∧
        handlerRoot.1.kids = some children ∧
        (∀ k f, Rec.get? k handlers = some f →
          Rec.get? k handlerRoot.1.attrs = some (Val.atom f)) ∧
        ∀ k, Rec.get? k handlers = none →
          Rec.get? k handlerRoot.1.attrs = Rec.get? k attrs)) ∧
    (Rec.get? "events" handlerRoot.1.attrs =
        some (.record [("onClick", .fn 1), ("onFocus", .fn 4), ("onBlur", .fn 3)]) ∧
      Rec.get? "onClick" handlerRoot.1.attrs = none) :=
  ⟨container_role_dispatch handlerLib handlerInstance handlerProps handlerInstance.baseProps
      handlerProps.events handlerRoot.1 handlerRoot.2 (by decide),
   by decide⟩

/-! ## Initial mutations -/

mutual
theorem Element.isEqual_self : ∀ e : Element, Element.isEqual e e = true
  | .text _ => by simp [Element.isEqual]
  | .elem t k a none => by
    simp [Element.isEqual, Obj.isEqual, Rec.isEqual_same, Element.isEqualKids]
  | .elem t k a (some kids) => by
    simp [Element.isEqual, Obj.isEqual, Rec.isEqual_same, Element.isEqualKids,
      Element.isEqualList_self kids]
theorem Element.isEqualList_self : ∀ l : List Element, Element.isEqualList l l = true
  | [] => by simp [Element.isEqualList]
  | e :: rest => by
    simp [Element.isEqualList, Element.isEqual_self e, Element.isEqualList_self rest]
end

theorem Props.isEqual_itself (p : Props) : Props.isEqual p p = true := by
  have hk : ∀ c : Option (List Element), Element.isEqualKids c c = true := by
    intro c
    cases c with
    | none => rfl
    | some l => simp [Element.isEqualKids, Element.isEqualList_self]
  have hn : ∀ c : Option Element, isEqualNode c c = true := by
    intro c
    cases c with
    | none => rfl
    | some e => simp [isEqualNode, Element.isEqual_self]
  simp [Props.isEqual, hk, hn]

/-- C14. `shouldComponentUpdate` computes its state patch from
`nextProps.externalEventMutations`: when that list is empty or absent the update step
leaves the state as it was and makes no engine call, no `setState` and no callback
invocation, whatever `nextProps.initialEventMutations` holds; when the props differ from
the current ones, replacing `initialEventMutations` in `nextProps` by anything else that
still differs changes nothing in what the step does; an update with unchanged props does
nothing at all, and `render` does not touch the state, so a second render does not
reapply the initial mutations. -/
theorem initial_mutations_only_at_mount (lib : Lib) (inst : Instance) (nextProps : Props) :
    (isEmptyList nextProps.externalEventMutations = true →
      ∃ r, shouldComponentUpdate lib inst nextProps = some r ∧ r.1.state = inst.state ∧
        r.2.1 = []) ∧
    (∀ m, Props.isEqual inst.props nextProps = false →
      Props.isEqual inst.props { nextProps with initialEventMutations := m } = false →
      shouldComponentUpdate lib inst { nextProps with initialEventMutations := m } =
        shouldComponentUpdate lib inst nextProps) ∧
    shouldComponentUpdate lib inst inst.props = some (inst, [], true) ∧
    (∀ root st, render lib inst = some (root, st) → (inst.commit st).state = inst.state) := by
  refine ⟨?_, ?_, ?_, ?_⟩
  · intro hempty
    have hm : (getMutations lib inst.state nextProps (getBaseProps lib inst nextProps)
        "externalEventMutations") = (none, []) := by
      cases he : nextProps.externalEventMutations with
      | none => simp [getMutations, Props.mutations, he]
      | some l =>
        rw [he] at hempty
        simp only [isEmptyList] at hempty
        simp [getMutations, Props.mutations, he, hempty]
    by_cases heq : Props.isEqual inst.props nextProps = true
    · exact ⟨(inst, [], true), by simp [shouldComponentUpdate, heq], rfl, rfl⟩
    · simp only [Bool.not_eq_true] at heq
      refine ⟨({ inst with baseProps := getBaseProps lib inst nextProps }, [], true), ?_, rfl, rfl⟩
      simp [shouldComponentUpdate, heq, hm, applyExternalMutations, Instance.setStates]
  · intro m h1 h2
    simp [shouldComponentUpdate, h1, h2, getBaseProps, getMutations, Props.mutations,
      applyExternalMutations]
  · simp [shouldComponentUpdate, Props.isEqual_itself]
  · intro root st _
    rfl

/-- C14 on an instance with one initial mutation and no external ones: mounting merges
the patch of the initial mutation into the state; an update with changed props (a new
`eventKey`) and another list of initial mutations leaves that state as it is and does
nothing else. -/
theorem initial_mutations_only_at_mount_witness :
    mountedInstance.state = [("0", .atom (.data 1))] ∧
    ∃ r, shouldComponentUpdate sampleLib mountedInstance
        { initialProps with eventKey := .num 1,
                            initialEventMutations := some [{ mutation := .fn 9 }] } = some r ∧
      r.1.state = mountedInstance.state ∧ r.2.1 = [] :=
  ⟨by decide,
   (initial_mutations_only_at_mount sampleLib mountedInstance
      { initialProps with eventKey := .num 1,
                          initialEventMutations := some [{ mutation := .fn 9 }] }).1 rfl⟩

/-! ## Lookup after store -/

theorem storeAll_untouched (key : String)
    (stores : List (Option String × Bundle × Fingerprint)) (cache : Cache)
    (hc : Rec.get? key cache = none) (hs : ∀ s ∈ stores, propKey s.1 ≠ key) :
    Rec.get? key
      (stores.foldl (fun cache s => cacheSharedEvents cache s.1 s.2.1 s.2.2) cache) = none := by
  induction stores generalizing cache with
  | nil => simpa using hc
  | cons s rest ih =>
    simp only [List.foldl_cons]
    apply ih
    · simp only [cacheSharedEvents]
      rw [Rec.get?_set_ne _ _ _ _ (hs s (List.mem_cons_self _ _))]
      exact hc
    · intro s2 hs2
      exact hs s2 (List.mem_cons_of_mem _ hs2)

/-- After `cacheSharedEvents(name, b, fp)` the call `getCachedSharedEvents(name, fp')`
returns `b` when `fp'` deep-equals `fp` and `undefined` otherwise, for every cache, name,
bundle and fingerprints. A lookup of a name under whose key nothing is stored returns
`undefined` when the name is no member inherited from `Object.prototype`, and throws when
it is one; stores under other keys do not change a lookup. -/
theorem getCachedSharedEvents_after_store (cache : Cache) (name : Option String) (b : Bundle)
    (fp fp2 : Fingerprint) :
    getCachedSharedEvents (cacheSharedEvents cache name b fp) name fp2 =
      some (if Fingerprint.isEqual fp2 fp then some b else none) ∧
    (Rec.get? (propKey name) cache = none → propKey name ∉ objectMembers →
      getCachedSharedEvents cache name fp2 = some none) ∧
    (Rec.get? (propKey name) cache = none → propKey name ∈ objectMembers →
      getCachedSharedEvents cache name fp2 = none) ∧
    (∀ other, propKey other ≠ propKey name →
      getCachedSharedEvents (cacheSharedEvents cache other b fp) name fp2 =
        getCachedSharedEvents cache name fp2) ∧
    (∀ (stores : List (Option String × Bundle × Fingerprint)) (s : String),
      (∀ st ∈ stores, ∃ n, st.1 = some n ∧ n ≠ s) → s ∉ objectMembers →
      getCachedSharedEvents (storeAll stores) (some s) fp2 = some none) := by
  refine ⟨?_, ?_, ?_, ?_, ?_⟩
  · simp [getCachedSharedEvents, cacheSharedEvents, Rec.get?_set_self]
  · intro h hn
    simp [getCachedSharedEvents, h, hn]
  · intro h hn
    simp [getCachedSharedEvents, h, hn]
  · intro other hne
    apply getCachedSharedEvents_congr
    simp only [cacheSharedEvents]
    exact Rec.get?_set_ne _ _ _ _ hne
  · intro stores s hs hn
    have hnone : Rec.get? (propKey (some s)) (storeAll stores) = none := by
      apply storeAll_untouched _ _ _ (by simp [Rec.get?])
      intro st hst
      obtain ⟨n, hn, hne⟩ := hs st hst
      rw [hn]
      simpa [propKey] using hne
    have hn2 : propKey (some s) ∉ objectMembers := by simpa [propKey] using hn
    simp [getCachedSharedEvents, hnone, hn2]

theorem injectChild_plain (cl : Closure) (names : List String) (idx : Nat) (t : CompType)
    (key : Option String) (attrs : Obj) (st : Rewrite) (r : Element × Rewrite)
    (hP : Cache.Plain st.cache) (hr : injectChild cl names idx t key attrs st = some r) :
    Cache.Plain r.2.cache ∧
      objectMembers.contains (propKey (deriveName attrs names idx)) = false := by
  obtain ⟨⟨cached, hlook⟩, hr2⟩ := injectChild_some _ names idx t key attrs st r hr
  subst hr2
  have hn : propKey (deriveName attrs names idx) ∉ objectMembers := by
    intro hk
    simp [getCachedSharedEvents, hP _ hk, hk] at hlook
  refine ⟨?_, by simpa using hn⟩
  intro k hk
  simp only [cacheSharedEvents]
  have hkey : propKey (deriveName attrs names idx) ≠ k := by
    intro he
    rw [he] at hn
    exact hn hk
  rw [Rec.get?_set_ne _ _ _ _ hkey]
  exact hP k hk

/-- A rewrite that returns stores no entry under an inherited member name: the lookup
that precedes the store would have thrown. -/
theorem getNewChildren_plain (lib : Lib) (inst : Instance) (props : Props)
    (baseProps : BaseProps) (out : List Element) (st : Rewrite)
    (h : getNewChildren lib inst props baseProps = some (out, st))
    (hp : Cache.Plain inst.sharedEventsCache) : Cache.Plain st.cache := by
  simp only [getNewChildren, alterChildren] at h
  exact alterList_preserves _ (fun st => Cache.Plain st.cache)
    (fun names idx t key attrs st r hP hr =>
      (injectChild_plain _ names idx t key attrs st r hP hr).1) _ _ _ _ _ hp h

mutual
theorem alterChild_rewritable (cl : Closure) :
    ∀ (e : Element) (names : List String) (idx : Nat) (st : Rewrite) (r : Element × Rewrite),
      Cache.Plain st.cache → alterChild cl names idx st e = some r →
      Element.rewritable names idx e = true
  | .text _, names, idx, st, r, hP, h => by simp [alterChild] at h
  | .elem t key attrs (some kids), names, idx, st, r, hP, h => by
    simp only [alterChild] at h
    split at h
    · rename_i results st1 hl
      simp only [Element.rewritable]
      exact alterList_rewritable cl kids _ _ _ _ hP hl
    · simp at h
  | .elem t key attrs none, names, idx, st, r, hP, h => by
    simp only [alterChild] at h
    split at h
    · rename_i ht
      have hn := (injectChild_plain cl names idx t key attrs st r hP h).2
      simp only [Element.rewritable, ht, hn, Bool.not_true, Bool.not_false, Bool.or_true]
    · rename_i ht
      simp [Element.rewritable, ht]
theorem alterList_rewritable (cl : Closure) :
    ∀ (l : List Element) (names : List String) (idx : Nat) (st : Rewrite)
      (r : List Element × Rewrite),
      Cache.Plain st.cache → alterList cl names idx st l = some r →
      Element.rewritableList names idx l = true
  | [], names, idx, st, r, hP, h => by simp [Element.rewritableList]
  | child :: rest, names, idx, st, r, hP, h => by
    simp only [alterList] at h
    split at h
    · rename_i result st1 hc
      have h1 := alterChild_rewritable cl child _ _ _ _ hP hc
      have hP1 : Cache.Plain st1.cache :=
        alterChild_preserves cl (fun st => Cache.Plain st.cache)
          (fun names idx t key attrs st r hP hr =>
            (injectChild_plain cl names idx t key attrs st r hP hr).1) child _ _ _ _ hP hc
      split at h
      · rename_i results st2 hl
        have h2 := alterList_rewritable cl rest _ _ _ _ hP1 hl
        simp [Element.rewritableList, h1, h2]
      · simp at h
    · simp at h
end

/-- From a cache without an entry under an inherited member name, as the cache of a
new instance is, the rewrite returns exactly on the child lists that hold no text node
and for which no inherited member name is derived. -/
theorem getNewChildren_isSome_iff (lib : Lib) (inst : Instance) (props : Props)
    (baseProps : BaseProps) (hp : Cache.Plain inst.sharedEventsCache) :
    (getNewChildren lib inst props baseProps).isSome =
      Element.rewritableList (Rec.keys baseProps) 0 (toArray props.children) := by
  cases h : Element.rewritableList (Rec.keys baseProps) 0 (toArray props.children) with
  | true =>
    obtain ⟨r, hr, _⟩ := getNewChildren_elements lib inst props baseProps h
    simp [hr]
  | false =>
    cases hr : getNewChildren lib inst props baseProps with
    | none => rfl
    | some r =>
      simp only [getNewChildren, alterChildren] at hr
      have := alterList_rewritable _ _ _ _ _ _ hp hr
      rw [h] at this
      cases this

/-- C16, the code at the failing input. In the empty cache of a new instance, where no
name was ever stored, the lookup of the name `"constructor"` does not return `undefined`:
`this.sharedEventsCache["constructor"]` is the inherited function `Object`, and the array
destructuring of it throws a `TypeError`; so for `"toString"` and `"__proto__"`. A child
with such a name makes `getNewChildren` throw on the first render. A name that is not
inherited, such as `"line"`, is a miss. -/
theorem never_stored_name_lookup_throws (fp : Fingerprint) :
    getCachedSharedEvents [] (some "constructor") fp = none ∧
    getCachedSharedEvents [] (some "toString") fp = none ∧
    getCachedSharedEvents [] (some "__proto__") fp = none ∧
    getCachedSharedEvents [] (some "line") fp = some none ∧
    (Instance.create sampleLib constructorProps).sharedEventsCache = [] ∧
    getNewChildren sampleLib (Instance.create sampleLib constructorProps) constructorProps
      (Instance.create sampleLib constructorProps).baseProps = none ∧
    render sampleLib (Instance.create sampleLib constructorProps) = none := by
  refine ⟨?_, ?_, ?_, ?_, by decide, by decide, by decide⟩ <;>
    simp [getCachedSharedEvents, Rec.get?, propKey, objectMembers]

/-! ## Names handed out by the rewrite -/

/-- C15, the code at the failing input. With a plain element before a participating leaf
that has no `name` prop, the child entries of the base-props map have the one key `"1"`,
and the name derived for the leaf, at index 1 of `keys(baseProps)`, is the reserved key
`"parent"`. With two plain elements before it the leaf is at index 2 and its derived name
is `undefined`. -/
theorem derived_name_is_parent_or_undefined :
    (Rec.keys (getBasePropsFromChildren specLib (toArray shiftedProps.children)) = ["1"] ∧
      (getNewChildren specLib shiftedInstance shiftedProps shiftedInstance.baseProps).map
          (fun r => r.2.injected.map (fun i => (i.child, i.name))) =
        some [(barChild, some "parent")]) ∧
    (Rec.keys (getBasePropsFromChildren specLib (toArray shiftedTwiceProps.children)) = ["2"] ∧
      (getNewChildren specLib shiftedTwiceInstance shiftedTwiceProps
          shiftedTwiceInstance.baseProps).map
          (fun r => r.2.injected.map (fun i => (i.child, i.name))) =
        some [(barChild, none)]) := by
  refine ⟨⟨by decide, by decide⟩, by decide, by decide⟩

/-- C19, the code at the failing input. The children are a group of two participating
leaves followed by a third participating leaf, none with a `name` prop; the name list
`keys(baseProps)` is `["0", "1", "2", "parent"]`. The group, at index 0, hands the slice
`["0", "1"]` to its two leaves; the third leaf, at index 1 of the outer list, receives
`"1"` again, not the third name `"2"`: two distinct leaves have the same name. -/
theorem names_repeat_after_a_group :
    Rec.keys groupedInstance.baseProps = ["0", "1", "2", "parent"] ∧
    (getNewChildren specLib groupedInstance groupedProps groupedInstance.baseProps).map
        (fun r => r.2.injected.map (fun i => i.name)) =
      some [some "0", some "1", some "1"] ∧
    (getNewChildren specLib groupedInstance groupedProps
        [("a", {}), ("b", {}), ("c", {}), ("parent", {})]).map
        (fun r => r.2.injected.map (fun i => i.name)) =
      some [some "a", some "b", some "b"] := by
  refine ⟨by decide, by decide, by decide⟩

/-! ## Text nodes and the shape of the output -/

mutual
theorem alterChild_text (cl : Closure) :
    ∀ (e : Element) (names : List String) (idx : Nat) (st : Rewrite),
      e.allElements = false → alterChild cl names idx st e = none
  | .text _, names, idx, st, h => by simp [alterChild]
  | .elem t key attrs (some kids), names, idx, st, h => by
    simp only [Element.allElements] at h
    simp [alterChild, alterList_text cl kids _ 0 st h]
  | .elem t key attrs none, names, idx, st, h => by simp [Element.allElements] at h
theorem alterList_text (cl : Closure) :
    ∀ (l : List Element) (names : List String) (idx : Nat) (st : Rewrite),
      Element.allElementsList l = false → alterList cl names idx st l = none
  | [], names, idx, st, h => by simp [Element.allElementsList] at h
  | child :: rest, names, idx, st, h => by
    simp only [Element.allElementsList, Bool.and_eq_false_iff] at h
    simp only [alterList]
    cases hc : alterChild cl names idx st child with
    | none => rfl
    | some r =>
      rcases h with h | h
      · rw [alterChild_text cl child names idx st h] at hc
        cases hc
      · simp [alterList_text cl rest names (idx + 1) r.2 h]
end

/-- The rewrite has no result when a node of the child tree is a text node. -/
theorem getNewChildren_text (lib : Lib) (inst : Instance) (props : Props)
    (baseProps : BaseProps) (h : Element.allElementsList (toArray props.children) = false) :
    getNewChildren lib inst props baseProps = none := by
  simp only [getNewChildren, alterChildren]
  exact alterList_text _ _ _ _ _ h

/-- C18, the code at the failing input. For the child list `[42]`, a single number node
as `React.Children.toArray` yields it, the rewrite throws at `child.props.children` and
has no output; the same holds when the text node is the nested child of a group, where
the recursive call throws. The node is not passed through. -/
theorem text_node_is_not_passed_through :
    toArray numberProps.children = [.text "42"] ∧
    getNewChildren sampleLib (Instance.create sampleLib numberProps) numberProps
      (Instance.create sampleLib numberProps).baseProps = none ∧
    getNewChildren sampleLib (Instance.create sampleLib nestedTextProps) nestedTextProps
      (Instance.create sampleLib nestedTextProps).baseProps = none := by
  refine ⟨by decide, by decide, by decide⟩

mutual
theorem alterChild_stems (cl : Closure) :
    ∀ (e : Element) (names : List String) (idx : Nat) (st : Rewrite) (r : Element × Rewrite),
      alterChild cl names idx st e = some r →
      Stems cl e r.1 ∧ Element.skeleton r.1 = Element.skeleton e
  | .text _, names, idx, st, r, h => by simp [alterChild] at h
  | .elem t key attrs (some kids), names, idx, st, r, h => by
    simp only [alterChild] at h
    split at h
    · rename_i results st1 hl
      obtain ⟨hs, hk⟩ := alterList_stems cl kids _ _ _ _ hl
      simp only [cloneElement, Option.map_some', Option.some.injEq] at h
      rw [← h]
      refine ⟨?_, ?_⟩
      · simp only [Stems]
        exact ⟨results, rfl, hs⟩
      · simp only [Option.elim_some, id, Option.elim_none, Element.skeleton]
        simp only at hk
        rw [hk]
    · simp at h
  | .elem t key attrs none, names, idx, st, r, h => by
    simp only [alterChild] at h
    split at h
    · rename_i ht
      have h := (injectChild_some cl names idx t key attrs st r h).2
      rw [← h]
      refine ⟨?_, ?_⟩
      · simp only [Stems, ht, if_true]
        exact ⟨_, _, rfl⟩
      · simp only [injectedClone, Element.skeleton]
    · rename_i ht
      simp only [Option.some.injEq] at h
      rw [← h]
      exact ⟨by simp [Stems, ht], rfl⟩
theorem alterList_stems (cl : Closure) :
    ∀ (l : List Element) (names : List String) (idx : Nat) (st : Rewrite)
      (r : List Element × Rewrite),
      alterList cl names idx st l = some r →
      StemsList cl l r.1 ∧ Element.skeletonList r.1 = Element.skeletonList l
  | [], names, idx, st, r, h => by
    simp only [alterList, Option.some.injEq] at h
    rw [← h]
    exact ⟨by simp [StemsList], rfl⟩
  | child :: rest, names, idx, st, r, h => by
    simp only [alterList] at h
    split at h
    · rename_i result st1 hc
      obtain ⟨hs1, hk1⟩ := alterChild_stems cl child _ _ _ _ hc
      split at h
      · rename_i results st2 hl
        obtain ⟨hs2, hk2⟩ := alterList_stems cl rest _ _ _ _ hl
        simp only [Option.some.injEq] at h
        rw [← h]
        refine ⟨?_, ?_⟩
        · simp only [StemsList]
          exact ⟨result, results, rfl, hs1, hs2⟩
        · simp only at hk1 hk2
          simp only [Element.skeletonList, hk1, hk2]
      · simp at h
    · simp at h
end

theorem StemsList.toForall (cl : Closure) :
    ∀ (l results : List Element), StemsList cl l results → List.Forall₂ (Stems cl) l results
  | [], results, h => by
    simp only [StemsList] at h
    subst h
    exact List.Forall₂.nil
  | child :: rest, results, h => by
    simp only [StemsList] at h
    obtain ⟨r, rs, he, h1, h2⟩ := h
    subst he
    exact List.Forall₂.cons h1 (StemsList.toForall cl rest rs h2)

/-- C20. For every child list whose nodes are all elements and for which the rewrite
derives no name that is a member inherited from `Object.prototype` (on such a name the
cache lookup throws), every name list and every closure (event list, state, base props)
and cache, `alterChildren` returns a list of the same length in which the i-th output
element stems from the i-th input child: the clone of a child with nested children, with
the child's own props and the rewritten nested children (which stem from the nested
children in the same way), the clone of a participating leaf with the injected props, or
the child itself. The output tree has the same shape as the input tree: the same nodes
with the same types in the same order at every level. -/
theorem alterChildren_preserves_shape (cl : Closure) (children : List Element)
    (childNames : List String) (st : Rewrite)
    (h : Element.rewritableList childNames 0 children = true) :
    ∃ results st1, alterChildren cl children childNames st = some (results, st1) ∧
      results.length = children.length ∧
      List.Forall₂ (Stems cl) children results ∧
      (∀ (i : Nat) (hi : i < children.length) (hr : i < results.length),
        Stems cl (children.get ⟨i, hi⟩) (results.get ⟨i, hr⟩)) ∧
      Element.skeletonList results = Element.skeletonList children := by
  obtain ⟨r, hr, _, _⟩ := alterList_elements cl children childNames 0 st h
  obtain ⟨hs, hk⟩ := alterList_stems cl children childNames 0 st r hr
  have hf := StemsList.toForall cl children r.1 hs
  refine ⟨r.1, r.2, hr, hf.length_eq.symm, hf, ?_, hk⟩
  intro i hi hr
  exact List.Forall₂.get hf hi hr

/-- C20 on a child list with a group (holding a participating leaf and a plain element),
a plain element and a participating leaf: the output, evaluated, and the statement at
this input. -/
theorem alterChildren_preserves_shape_witness :
    Element.rewritableList ["a", "b", "c"] 0 shapeChildren = true ∧
    (alterChildren
        { lib := sampleLib, events := some [], eventKey := .undef, baseProps := [],
          state := [] }
        shapeChildren ["a", "b", "c"] { cache := [], nextRef := 0 }).map
        (fun r => Element.skeletonList r.1) =
      some [.elem hostG none [] (some [.elem victoryBar none [] none, .elem hostG none [] none]),
        .elem hostG none [] none, .elem victoryBar none [] none] ∧
    ∃ results st1,
      alterChildren
        { lib := sampleLib, events := some [], eventKey := .undef, baseProps := [],
          state := [] }
        shapeChildren ["a", "b", "c"] { cache := [], nextRef := 0 } = some (results, st1) ∧
      results.length = 3 ∧
      Element.skeletonList results = Element.skeletonList shapeChildren := by
  refine ⟨by decide, by decide, ?_⟩
  obtain ⟨results, st1, h1, h2, _, _, h5⟩ :=
    alterChildren_preserves_shape
      { lib := sampleLib, events := some [], eventKey := .undef, baseProps := [], state := [] }
      shapeChildren ["a", "b", "c"] { cache := [], nextRef := 0 } (by decide)
  exact ⟨results, st1, h1, h2, h5⟩

end VictorySharedEvents
